import Mathlib

/-!
Verification of the EKF covariance-management core
(src/modules/ekf2/EKF/covariance.cpp).

The covariance matrix `P` is embedded as a total function `ℕ → ℕ → ℚ`;
only the entries with both indices below `stateSize = 23` represent the
stored matrix.  The state layout follows the `State` registry of the
estimator: attitude-tilt error (3), velocity (3), position (3), gyro
bias (3), accel bias (3), earth magnetic field (3), body magnetic
field (3), wind velocity (2).  All compile-time feature blocks
(GNSS, barometer, range finder, magnetometer, wind) are taken as
present, matching the fixed maximal layout described in the design
notes; runtime activity flags gate the optional blocks.

Floating-point numbers are modelled by exact rationals: the claims under
study are about exact clamping, zeroing and accumulation structure, not
about rounding.
-/

namespace EkfCov

/-- Square of a rational, mirroring the `sq` helper of the source. -/
def sq (x : ℚ) : ℚ := x * x

/-- Clamp, mirroring `math::constrain(val, min_val, max_val)`:
`(val < min_val) ? min_val : ((val > max_val) ? max_val : val)`. -/
def constrain (x lo hi : ℚ) : ℚ := if x < lo then lo else if hi < x then hi else x

/-- Standard gravity constant `CONSTANTS_ONE_G` (9.80665 m/s²). -/
def CONSTANTS_ONE_G : ℚ := 980665 / 100000

/-- Modelled from the spec: the fixed elevated "bad data" accelerometer
process-noise constant `BADACC_BIAS_PNOISE` (defined in a header outside
the provided sources); its concrete value is irrelevant to the claims. -/
def BADACC_BIAS_PNOISE : ℚ := 49 / 10

/-- The covariance matrix, embedded as a total function on naturals. -/
abbrev Mat := ℕ → ℕ → ℚ

/-- A 3×3 matrix (used for the attitude reset rotation arithmetic). -/
abbrev Mat3 := ℕ → ℕ → ℚ

/-- Block descriptor of the state layout registry (`IdxDof`). -/
structure IdxDof where
  idx : ℕ
  dof : ℕ

namespace State

/-- Attitude-tilt error block. -/
def quat_nominal : IdxDof := ⟨0, 3⟩
/-- Velocity block. -/
def vel : IdxDof := ⟨3, 3⟩
/-- Position block. -/
def pos : IdxDof := ⟨6, 3⟩
/-- Gyroscope bias block. -/
def gyro_bias : IdxDof := ⟨9, 3⟩
/-- Accelerometer bias block. -/
def accel_bias : IdxDof := ⟨12, 3⟩
/-- Earth-frame magnetic field block. -/
def mag_I : IdxDof := ⟨15, 3⟩
/-- Body-frame magnetic field block. -/
def mag_B : IdxDof := ⟨18, 3⟩
/-- Wind velocity block. -/
def wind_vel : IdxDof := ⟨21, 2⟩
/-- Total number of states (`State::size`). -/
def size : ℕ := 23

end State

/-- Membership of a state index in a block. -/
def inB (b : IdxDof) (i : ℕ) : Prop := b.idx ≤ i ∧ i < b.idx + b.dof

instance (b : IdxDof) (i : ℕ) : Decidable (inB b i) :=
  inferInstanceAs (Decidable (b.idx ≤ i ∧ i < b.idx + b.dof))

/-- Configuration parameters consumed by the covariance core
(`_params` fields referenced by covariance.cpp). -/
structure Params where
  gyro_noise : ℚ
  accel_noise : ℚ
  gyro_bias_p_noise : ℚ
  accel_bias_p_noise : ℚ
  mage_p_noise : ℚ
  magb_p_noise : ℚ
  wind_vel_nsd : ℚ
  wind_vel_nsd_scaler : ℚ
  initial_wind_uncertainty : ℚ
  gps_vel_noise : ℚ
  baro_noise : ℚ
  gps_pos_noise : ℚ
  range_noise : ℚ
  initial_tilt_err : ℚ
  mag_noise : ℚ
  switch_on_gyro_bias : ℚ
  switch_on_accel_bias : ℚ

/-- Mode/activity flags read by the covariance core
(`_control_status.flags` fields referenced by covariance.cpp). -/
structure ControlFlags where
  mag : Bool
  wind : Bool
  gps_hgt : Bool
  rng_hgt : Bool

/-- The estimator context visible to `predictCovariance` and
`fixCovarianceErrors`: parameters, activity flags, the average update
interval `_dt_ekf_avg`, the per-axis bias inhibit flags, the held
previous bias variances, the vertical-accelerometer fault flag and the
low-pass-filtered height rate. -/
structure Env where
  p : Params
  flags : ControlFlags
  dt : ℚ
  gyro_bias_inhibit : ℕ → Bool
  accel_bias_inhibit : ℕ → Bool
  prev_gyro_bias_var : ℕ → ℚ
  prev_accel_bias_var : ℕ → ℚ
  bad_acc_vertical : Bool
  height_rate_lpf : ℚ

/-- IMU sample fields read by `predictCovariance` that the claims
depend on (the delta-velocity clipping fault flags per axis). -/
structure ImuSample where
  delta_vel_clipping : ℕ → Bool

/-! ### Matrix helper operations

The dense-matrix helper methods used by covariance.cpp live in the
matrix library, outside the provided sources; they are modelled from
the spec below. -/

/-- Modelled from the spec: `P.uncorrelateCovarianceSetVariance<1>(k, v)` —
fully decorrelate state `k` (zero all off-diagonal entries relating it to
every other state) and set its own variance to `v`. -/
def uncorrelateSetVar1 (P : Mat) (k : ℕ) (v : ℚ) : Mat := fun i j =>
  if i = k then (if j = k then v else 0)
  else if j = k then 0
  else P i j

/-- Modelled from the spec: `P.uncorrelateCovarianceSetVariance<dof>(idx, v)`
for a whole block — zero every entry in the block's rows and columns and
set each of the block's diagonal entries to `v`. -/
def uncorrelateSetVar (P : Mat) (b : IdxDof) (v : ℚ) : Mat := fun i j =>
  if inB b i then (if i = j then v else 0)
  else if inB b j then 0
  else P i j

/-- Modelled from the spec: the vector-valued variant used at
initialisation — zero the block's rows and columns and set the block's
diagonal entries to the supplied per-axis values. -/
def uncorrelateSetVarVec (P : Mat) (b : IdxDof) (v : ℕ → ℚ) : Mat := fun i j =>
  if inB b i then (if i = j then v (i - b.idx) else 0)
  else if inB b j then 0
  else P i j

/-- Modelled from the spec: `P.makeRowColSymmetric<dof>(idx)` — re-copy the
upper triangle onto the lower triangle for the rows and columns of one
block (diagonal entries are untouched). -/
def makeRowColSymmetric (b : IdxDof) (P : Mat) : Mat := fun i j =>
  if (inB b i ∨ inB b j) ∧ i < State.size ∧ j < State.size then
    (if i ≤ j then P i j else P j i)
  else P i j

/-- Add `q` to the single diagonal entry `(k, k)` (the `P(i,i) += noise`
idiom of the source). -/
def addDiag (P : Mat) (k : ℕ) (q : ℚ) : Mat := fun i j =>
  if i = k ∧ j = k then P i j + q else P i j

/-- Add `q` to every diagonal entry of a block (the per-axis process-noise
injection loops of `predictCovariance`). -/
def addDiagBlock (b : IdxDof) (q : ℚ) (P : Mat) : Mat := fun i j =>
  if i = j ∧ inB b i then P i j + q else P i j

/-- Trace of a block: `P.trace<dof>(idx)`, the sum of the block's diagonal
entries. -/
def traceBlock (P : Mat) (b : IdxDof) : ℚ :=
  ((List.range b.dof).map (fun k => P (b.idx + k) (b.idx + k))).sum

/-! ### Ekf::constrainStateVar -/

/-- `Ekf::constrainStateVar(state, min, max)`: clamp each diagonal entry of
the block into `[min, max]`. -/
def constrainStateVar (b : IdxDof) (lo hi : ℚ) (P : Mat) : Mat := fun i j =>
  if i = j ∧ inB b i then constrain (P i j) lo hi else P i j

/-! ### Reset operators -/

/-- Modelled from the spec: `Ekf::resetAccelBiasCov()` — reinitialise the
whole accelerometer-bias block to its startup variance
`sq(switch_on_accel_bias)`, decorrelating it from all other states. -/
def resetAccelBiasCov (p : Params) (P : Mat) : Mat :=
  uncorrelateSetVar P State.accel_bias (sq p.switch_on_accel_bias)

/-- Modelled from the spec: `Ekf::resetGyroBiasCov()` — reinitialise the
gyro-bias block to the switch-on gyro bias variance, decorrelated. -/
def resetGyroBiasCov (p : Params) (P : Mat) : Mat :=
  uncorrelateSetVar P State.gyro_bias (sq p.switch_on_gyro_bias)

/-- `Ekf::resetMagCov()`: set both magnetic-field blocks to
`sq(mag_noise)`, decorrelated (the `_mag_decl_cov_reset` bookkeeping does
not touch `P`). -/
def resetMagCov (p : Params) (P : Mat) : Mat :=
  uncorrelateSetVar (uncorrelateSetVar P State.mag_I (sq p.mag_noise))
    State.mag_B (sq p.mag_noise)

/-- Modelled from the spec: `Ekf::resetWindCov()` — reinitialise the wind
block to the configured initial wind uncertainty (squared), decorrelated. -/
def resetWindCov (p : Params) (P : Mat) : Mat :=
  uncorrelateSetVar P State.wind_vel (sq p.initial_wind_uncertainty)

/-! ### 3×3 rotation arithmetic for the attitude reset -/

/-- Diagonal 3×3 matrix from three values. -/
def diag3 (a b c : ℚ) : Mat3 := fun i j =>
  if i = j then (if i = 0 then a else if i = 1 then b else if i = 2 then c else 0) else 0

/-- 3×3 matrix product. -/
def mul3 (A B : Mat3) : Mat3 := fun i j =>
  ((List.range 3).map (fun k => A i k * B k j)).sum

/-- 3×3 transpose. -/
def transpose3 (A : Mat3) : Mat3 := fun i j => A j i

/-- Modelled from the spec: `Ekf::resetStateCovariance<State::quat_nominal>` —
write a 3×3 covariance into the attitude block and decorrelate the block
from all other states. -/
def resetStateCovarianceQuat (P : Mat) (M : Mat3) : Mat := fun i j =>
  if inB State.quat_nominal i ∧ inB State.quat_nominal j then M i j
  else if inB State.quat_nominal i ∨ inB State.quat_nominal j then 0
  else P i j

/-- `Ekf::resetQuatCov(rot_var_ned)`: rotate the level-frame tilt/yaw
variance into the current attitude frame
(`_R_to_earth.T() * q_cov_ned * _R_to_earth`) and write it into the
attitude block. -/
def resetQuatCovVec (R : Mat3) (rot_var_ned : ℚ × ℚ × ℚ) (P : Mat) : Mat :=
  resetStateCovarianceQuat P
    (mul3 (mul3 (transpose3 R) (diag3 rot_var_ned.1 rot_var_ned.2.1 rot_var_ned.2.2)) R)

/-- `Ekf::resetQuatCov(yaw_noise)`: tilt variance from the configured
initial tilt error (floored at 0.01), yaw variance `sq(0.01)` raised to
`sq(yaw_noise)` when a finite yaw noise is supplied (`none` models a
non-finite input such as the NAN default argument). -/
def resetQuatCov (p : Params) (R : Mat3) (yaw_noise : Option ℚ) (P : Mat) : Mat :=
  let tilt_var := sq (max p.initial_tilt_err (1/100))
  let yaw_var :=
    match yaw_noise with
    | none => sq (1/100)
    | some yn => max (sq yn) (sq (1/100))
  resetQuatCovVec R (tilt_var, tilt_var, yaw_var) P

/-! ### Ekf::initialiseCovariance -/

/-- `Ekf::initialiseCovariance()`: zero `P`, then set each block's starting
variance from configuration and the current height-source flags; the
attitude block additionally depends on the current attitude rotation
`R` through `resetQuatCov`.  The prior matrix argument is zeroed first
(`P.zero()`), so the result never depends on it. -/
def initialiseCovariance (p : Params) (flags : ControlFlags) (R : Mat3) (_P : Mat) : Mat :=
  let P0 : Mat := fun _ _ => 0
  let P1 := resetQuatCov p R none P0
  let vel_var := sq (max p.gps_vel_noise (1/100))
  let P2 := uncorrelateSetVarVec P1 State.vel
    (fun k => if k = 2 then sq (3/2) * vel_var else vel_var)
  let z_pos_var0 := sq (max p.baro_noise (1/100))
  let z_pos_var1 := if flags.gps_hgt then sq (max ((3/2) * p.gps_pos_noise) (1/100)) else z_pos_var0
  let z_pos_var2 := if flags.rng_hgt then sq (max p.range_noise (1/100)) else z_pos_var1
  let xy_pos_var := sq (max p.gps_pos_noise (1/100))
  let P3 := uncorrelateSetVarVec P2 State.pos
    (fun k => if k = 2 then z_pos_var2 else xy_pos_var)
  let P4 := resetGyroBiasCov p P3
  let P5 := resetAccelBiasCov p P4
  let P6 := resetMagCov p P5
  resetWindCov p P6

/-! ### Ekf::predictCovariance -/

/-- Gyro noise variance passed to the transition routine:
`sq(math::constrain(_params.gyro_noise, 0, 1))`. -/
def predictGyroVar (p : Params) : ℚ := sq (constrain p.gyro_noise 0 1)

/-- Per-axis accelerometer noise variance passed to the transition
routine: the elevated bad-data value when the vertical-accel fault is
asserted or delta-velocity clipping was detected on that axis, the
clamped configured value otherwise. -/
def predictAccelVar (e : Env) (imu : ImuSample) (i : ℕ) : ℚ :=
  if e.bad_acc_vertical || imu.delta_vel_clipping i then sq BADACC_BIAS_PNOISE
  else sq (constrain e.p.accel_noise 0 1)

/-- One axis of the bias process-noise loops of `predictCovariance`:
add the process noise to the axis's diagonal when not inhibited,
otherwise decorrelate the axis and restore its held previous variance. -/
def biasAxisStep (inhibit : ℕ → Bool) (prev : ℕ → ℚ) (b : IdxDof) (pnoise : ℚ)
    (P : Mat) (k : ℕ) : Mat :=
  if inhibit k then uncorrelateSetVar1 P (b.idx + k) (prev k)
  else addDiag P (b.idx + k) pnoise

/-- The gyro-bias and accel-bias process-noise loops of
`predictCovariance` (axes processed in index order). -/
def injectBiasNoise (e : Env) (P : Mat) : Mat :=
  let gyro_bias_process_noise := sq (e.dt * constrain e.p.gyro_bias_p_noise 0 1)
  let accel_bias_process_noise := sq (e.dt * constrain e.p.accel_bias_p_noise 0 1)
  let Pg := (List.range State.gyro_bias.dof).foldl
    (biasAxisStep e.gyro_bias_inhibit e.prev_gyro_bias_var State.gyro_bias
      gyro_bias_process_noise) P
  (List.range State.accel_bias.dof).foldl
    (biasAxisStep e.accel_bias_inhibit e.prev_accel_bias_var State.accel_bias
      accel_bias_process_noise) Pg

/-- The magnetic-field and wind process-noise injection of
`predictCovariance`: each optional block receives its noise only when its
activity flag is set and its current trace is below the block's ceiling. -/
def magWindNoiseStep (e : Env) (P : Mat) : Mat :=
  let P1 :=
    if e.flags.mag then
      let Pa :=
        if traceBlock P State.mag_I < 1/10 then
          addDiagBlock State.mag_I (sq (e.dt * constrain e.p.mage_p_noise 0 1)) P
        else P
      if traceBlock Pa State.mag_B < 1/10 then
        addDiagBlock State.mag_B (sq (e.dt * constrain e.p.magb_p_noise 0 1)) Pa
      else Pa
    else P
  if e.flags.wind then
    if traceBlock P1 State.wind_vel < sq e.p.initial_wind_uncertainty then
      addDiagBlock State.wind_vel
        (sq (constrain e.p.wind_vel_nsd 0 1 * (1 + e.p.wind_vel_nsd_scaler * |e.height_rate_lpf|))
          * e.dt) P1
    else P1
  else P1

/-- The explicit symmetrisation loop of `predictCovariance`: copy each
upper-triangle entry `P(column, row)` with `column < row` onto the
lower-triangle entry `P(row, column)`. -/
def symmetrizeUpperToLower (P : Mat) : Mat := fun i j =>
  if j < i ∧ i < State.size then P j i else P i j

/-! ### Ekf::fixCovarianceErrors -/

/-- The minimum safe accel-bias variance `1e-9 / sq(_dt_ekf_avg)`. -/
def minSafeStateVar (e : Env) : ℚ := (1/1000000000) / sq e.dt

/-- The accel-bias lower clamp target `5E-8 / sq(_dt_ekf_avg)`. -/
def minStateVarTarget (e : Env) : ℚ := (5/100000000) / sq e.dt

/-- The accel-bias upper clamp bound `sq(0.1 * CONSTANTS_ONE_G)`. -/
def accelBiasVarMax : ℚ := sq ((1/10) * CONSTANTS_ONE_G)

/-- One axis of the accel-bias scanning loop of `fixCovarianceErrors`:
skip inhibited axes; raise the running maximum when the axis's variance
exceeds it, otherwise flag a reset when the variance is below the safe
minimum.  The accumulator is `(maxStateVar, resetRequired)`. -/
def accelScanStep (e : Env) (P : Mat) (acc : ℚ × Bool) (k : ℕ) : ℚ × Bool :=
  if e.accel_bias_inhibit k then acc
  else if acc.1 < P (State.accel_bias.idx + k) (State.accel_bias.idx + k) then
    (P (State.accel_bias.idx + k) (State.accel_bias.idx + k), acc.2)
  else if P (State.accel_bias.idx + k) (State.accel_bias.idx + k) < minSafeStateVar e then
    (acc.1, true)
  else acc

/-- The accel-bias scanning loop: fold over the three axes starting from
`(minSafeStateVar, false)`. -/
def accelScan (e : Env) (P : Mat) : ℚ × Bool :=
  (List.range State.accel_bias.dof).foldl (accelScanStep e P) (minSafeStateVar e, false)

/-- The accel-bias clamping loop of `fixCovarianceErrors`: clamp each
non-inhibited axis's variance into `[minAllowed, sq(0.1 g)]`. -/
def accelClamp (e : Env) (minAllowed : ℚ) (P : Mat) : Mat := fun i j =>
  if i = j ∧ inB State.accel_bias i ∧ e.accel_bias_inhibit (i - State.accel_bias.idx) = false then
    constrain (P i j) minAllowed accelBiasVarMax
  else P i j

/-- The accel-bias section of `fixCovarianceErrors`: entered only when at
least one axis is not inhibited; scans for the maximum non-inhibited
variance and a below-minimum violation, clamps the non-inhibited axes,
and performs the full block reset afterwards when flagged. -/
def accelBiasFix (e : Env) (P : Mat) : Mat :=
  if !e.accel_bias_inhibit 0 || !e.accel_bias_inhibit 1 || !e.accel_bias_inhibit 2 then
    let scan := accelScan e P
    let minAllowedStateVar := max ((1/100) * scan.1) (minStateVarTarget e)
    let Pc := accelClamp e minAllowedStateVar P
    if scan.2 then resetAccelBiasCov e.p Pc else Pc
  else P

/-- The leading clamps of `fixCovarianceErrors`: attitude into
`[0, quat_var_max]`, velocity and position into `[1e-6, 1e6]`, gyro bias
into `[0, gyro_bias_var_max]`. -/
def constrainCore (P : Mat) : Mat :=
  constrainStateVar State.gyro_bias 0 1
    (constrainStateVar State.pos (1/1000000) 1000000
      (constrainStateVar State.vel (1/1000000) 1000000
        (constrainStateVar State.quat_nominal 0 1 P)))

/-- The core-block clamps followed by the accel-bias section of
`fixCovarianceErrors`. -/
def fixCoreStage (e : Env) (P : Mat) : Mat :=
  accelBiasFix e (constrainCore P)

/-- The `force_symmetry` pass of `fixCovarianceErrors` over the five core
blocks, applied in the order of the source. -/
def fixSymStage (force_symmetry : Bool) (P : Mat) : Mat :=
  if force_symmetry then
    makeRowColSymmetric State.accel_bias
      (makeRowColSymmetric State.gyro_bias
        (makeRowColSymmetric State.pos
          (makeRowColSymmetric State.vel
            (makeRowColSymmetric State.quat_nominal P))))
  else P

/-- The magnetic-field gating of `fixCovarianceErrors`: zero both field
blocks when magnetometer fusion is inactive, otherwise clamp their
diagonals into `[0, 1]` and optionally re-symmetrise them. -/
def fixMagStage (force_symmetry : Bool) (e : Env) (P : Mat) : Mat :=
  if e.flags.mag then
    let Pb := constrainStateVar State.mag_B 0 1 (constrainStateVar State.mag_I 0 1 P)
    if force_symmetry then
      makeRowColSymmetric State.mag_B (makeRowColSymmetric State.mag_I Pb)
    else Pb
  else uncorrelateSetVar (uncorrelateSetVar P State.mag_I 0) State.mag_B 0

/-- The wind gating of `fixCovarianceErrors`: zero the wind block when
wind estimation is inactive, otherwise clamp its diagonal into
`[0, 1e6]` and optionally re-symmetrise it. -/
def fixWindStage (force_symmetry : Bool) (e : Env) (P : Mat) : Mat :=
  if e.flags.wind then
    let Pa := constrainStateVar State.wind_vel 0 1000000 P
    if force_symmetry then makeRowColSymmetric State.wind_vel Pa else Pa
  else uncorrelateSetVar P State.wind_vel 0

/-- `Ekf::fixCovarianceErrors(force_symmetry)`: clamp the core blocks,
run the accel-bias section, optionally re-symmetrise the core blocks,
then gate the optional magnetic-field and wind blocks on their activity
flags (zeroing them when inactive, clamping and optionally
re-symmetrising when active). -/
def fixCovarianceErrors (force_symmetry : Bool) (e : Env) (P : Mat) : Mat :=
  fixWindStage force_symmetry e
    (fixMagStage force_symmetry e
      (fixSymStage force_symmetry (fixCoreStage e P)))

/-- `Ekf::predictCovariance(imu_delayed)`: compute the noise variances,
replace `P` with the external transition routine's result, inject the
bias / magnetic-field / wind process noise, copy the upper triangle onto
the lower half, and finish with `fixCovarianceErrors(false)`.  The
external transition routine is abstracted as the function argument
`trans`, applied to the current matrix and the computed noise
variances. -/
def predictCovariance (e : Env) (imu : ImuSample)
    (trans : Mat → ℚ → (ℕ → ℚ) → Mat) (P : Mat) : Mat :=
  let Pp := trans P (predictGyroVar e.p) (predictAccelVar e imu)
  fixCovarianceErrors false e
    (symmetrizeUpperToLower (magWindNoiseStep e (injectBiasNoise e Pp)))

/-- Iterated prediction: `N` consecutive `predictCovariance` calls with
the same context, IMU fault pattern and transition routine. -/
def predictIter (e : Env) (imu : ImuSample) (trans : Mat → ℚ → (ℕ → ℚ) → Mat) :
    ℕ → Mat → Mat
  | 0, P => P
  | n + 1, P => predictIter e imu trans n (predictCovariance e imu trans P)

/-! ### Ekf::checkAndFixCovarianceUpdate -/

/-- One index of the `checkAndFixCovarianceUpdate` loop: when the current
diagonal is below the correction term's diagonal, fully decorrelate the
state (variance set to zero) and mark the result unhealthy. -/
def checkAndFixStep (KHP : Mat) (acc : Mat × Bool) (i : ℕ) : Mat × Bool :=
  if acc.1 i i < KHP i i then (uncorrelateSetVar1 acc.1 i 0, false) else acc

/-- `Ekf::checkAndFixCovarianceUpdate(KHP)`: scan all state indices in
order, repairing each state whose variance the correction would drive
negative; returns the repaired matrix and the health flag. -/
def checkAndFixCovarianceUpdate (P KHP : Mat) : Mat × Bool :=
  (List.range State.size).foldl (checkAndFixStep KHP) (P, true)

/-- Closed-form matrix of the `checkAndFixCovarianceUpdate` scan over the
first `n` state indices: an entry is zeroed exactly when its row or
column index was repaired. -/
def cafRepair (P KHP : Mat) (n : ℕ) : Mat := fun i j =>
  if (i < n ∧ P i i < KHP i i) ∨ (j < n ∧ P j j < KHP j j) then 0 else P i j

/-! ### Concrete inputs used by the witnesses -/

/-- Concrete covariance matrix for the C1 witness: diagonal 1 at state 5,
diagonal 2 elsewhere. -/
def exC1P : Mat := fun i j => if i = j then (if i = 5 then 1 else 2) else 0

/-- Concrete correction term for the C1 witness: diagonal 3 at state 5,
zero elsewhere, so exactly state 5 must be repaired. -/
def exC1K : Mat := fun i j => if i = j ∧ i = 5 then 3 else 0

/-- Concrete configuration parameters used by the witnesses. -/
def exParams : Params :=
  { gyro_noise := 1/100
    accel_noise := 1/50
    gyro_bias_p_noise := 1/1000
    accel_bias_p_noise := 1/500
    mage_p_noise := 1/1000
    magb_p_noise := 1/10000
    wind_vel_nsd := 1/10
    wind_vel_nsd_scaler := 1/2
    initial_wind_uncertainty := 1
    gps_vel_noise := 3/10
    baro_noise := 7/2
    gps_pos_noise := 1/2
    range_noise := 1/10
    initial_tilt_err := 1/10
    mag_noise := 1/20
    switch_on_gyro_bias := 1/10
    switch_on_accel_bias := 1/5 }

/-- Concrete estimator context used by the witnesses: magnetometer and
wind fusion active, nothing inhibited, no faults. -/
def exEnv : Env :=
  { p := exParams
    flags := ⟨true, true, false, false⟩
    dt := 1/100
    gyro_bias_inhibit := fun _ => false
    accel_bias_inhibit := fun _ => false
    prev_gyro_bias_var := fun _ => 1/1000
    prev_accel_bias_var := fun _ => 1/1000
    bad_acc_vertical := false
    height_rate_lpf := 0 }

/-- Context with magnetometer and wind fusion inactive. -/
def exEnvInactive : Env := { exEnv with flags := ⟨false, false, false, false⟩ }

/-- Context with every accel-bias axis inhibited and gyro-bias axis 0
inhibited. -/
def exEnvAllInhib : Env :=
  { exEnv with
    accel_bias_inhibit := fun _ => true
    gyro_bias_inhibit := fun k => decide (k = 0) }

/-- Generic concrete covariance matrix: 2 on the diagonal, 1/2 off it. -/
def exGenP : Mat := fun i j => if i = j then 2 else 1/2

/-- Asymmetric concrete covariance matrix used by the symmetry witness. -/
def exAsymP : Mat := fun i j => (i : ℚ) + 2 * (j : ℚ)

/-- Small diagonal covariance matrix (all block traces below their
process-noise ceilings). -/
def exSmallP : Mat := fun i j => if i = j then 1/100 else 0

/-- Context with the bad-vertical-accelerometer fault asserted. -/
def exEnvBadAcc : Env := { exEnv with bad_acc_vertical := true }

/-- IMU sample with no delta-velocity clipping. -/
def exImuClean : ImuSample := ⟨fun _ => false⟩

/-- IMU sample with delta-velocity clipping detected on axis 1. -/
def exImuClip1 : ImuSample := ⟨fun k => decide (k = 1)⟩

/-- Covariance matrix with an extreme accel-bias variance spread:
1e6 on axis 0 of the accel-bias block, 1 on the other diagonals. -/
def exRatioP : Mat := fun i j => if i = j then (if i = 12 then 1000000 else 1) else 0

/-- Context with gyro-bias axis 0 inhibited and a held previous gyro
variance of 2, above the gyro-bias clamp maximum of 1. -/
def exEnvPrev2 : Env :=
  { exEnv with
    gyro_bias_inhibit := fun k => decide (k = 0)
    prev_gyro_bias_var := fun _ => 2 }

/-- Identity stand-in for the external transition routine. -/
def exTransId : Mat → ℚ → (ℕ → ℚ) → Mat := fun Q _ _ => Q

/-- The identity 3×3 rotation. -/
def exRId : Mat3 := fun i j => if i = j then 1 else 0

/-- The 3×3 rotation by 90° about the x axis. -/
def exRRot : Mat3 := fun i j =>
  if i = 0 ∧ j = 0 then 1
  else if i = 1 ∧ j = 2 then -1
  else if i = 2 ∧ j = 1 then 1
  else 0

/-- Partial symmetry predicate: the stored matrix agrees with its
transpose on every pair whose row or column index satisfies `s`. -/
def SymmTouch (s : ℕ → Prop) (P : Mat) : Prop :=
  ∀ i j, i < State.size → j < State.size → (s i ∨ s j) → P i j = P j i

/-! ### Entry lemmas for the matrix operations -/

lemma inB_quat (i : ℕ) : inB State.quat_nominal i ↔ i < 3 := by
  simp only [inB, State.quat_nominal]
  omega

lemma inB_vel (i : ℕ) : inB State.vel i ↔ 3 ≤ i ∧ i < 6 := by
  simp only [inB, State.vel]

lemma inB_pos (i : ℕ) : inB State.pos i ↔ 6 ≤ i ∧ i < 9 := by
  simp only [inB, State.pos]

lemma inB_gyro (i : ℕ) : inB State.gyro_bias i ↔ 9 ≤ i ∧ i < 12 := by
  simp only [inB, State.gyro_bias]

lemma inB_accel (i : ℕ) : inB State.accel_bias i ↔ 12 ≤ i ∧ i < 15 := by
  simp only [inB, State.accel_bias]

lemma inB_magI (i : ℕ) : inB State.mag_I i ↔ 15 ≤ i ∧ i < 18 := by
  simp only [inB, State.mag_I]

lemma inB_magB (i : ℕ) : inB State.mag_B i ↔ 18 ≤ i ∧ i < 21 := by
  simp only [inB, State.mag_B]

lemma inB_wind (i : ℕ) : inB State.wind_vel i ↔ 21 ≤ i ∧ i < 23 := by
  simp only [inB, State.wind_vel]

/-- The clamp lies below the upper bound whenever the bounds are ordered. -/
lemma constrain_le_hi {x lo hi : ℚ} (h : lo ≤ hi) : constrain x lo hi ≤ hi := by
  unfold constrain
  split_ifs <;> linarith

/-- The clamp lies above the lower bound whenever the bounds are ordered. -/
lemma lo_le_constrain {x lo hi : ℚ} (h : lo ≤ hi) : lo ≤ constrain x lo hi := by
  unfold constrain
  split_ifs <;> linarith

/-- The clamp never exceeds the larger of the input and the lower bound. -/
lemma constrain_le_max (x lo hi : ℚ) : constrain x lo hi ≤ max x lo := by
  unfold constrain
  split_ifs with h1 h2
  · exact le_max_right x lo
  · exact le_trans (le_of_lt h2) (le_max_left x lo)
  · exact le_max_left x lo

/-- Clamping a value already inside the range is the identity. -/
lemma constrain_eq_self {x lo hi : ℚ} (h1 : lo ≤ x) (h2 : x ≤ hi) :
    constrain x lo hi = x := by
  unfold constrain
  split_ifs <;> linarith

lemma constrainStateVar_offdiag (b : IdxDof) (lo hi : ℚ) (P : Mat) {i j : ℕ}
    (h : i ≠ j) : constrainStateVar b lo hi P i j = P i j := by
  unfold constrainStateVar
  rw [if_neg (by tauto)]

lemma constrainStateVar_notMem (b : IdxDof) (lo hi : ℚ) (P : Mat) {i : ℕ} (j : ℕ)
    (h : ¬inB b i) : constrainStateVar b lo hi P i j = P i j := by
  unfold constrainStateVar
  rw [if_neg (by tauto)]

lemma constrainStateVar_diag (b : IdxDof) (lo hi : ℚ) (P : Mat) {i : ℕ}
    (h : inB b i) : constrainStateVar b lo hi P i i = constrain (P i i) lo hi := by
  unfold constrainStateVar
  rw [if_pos ⟨rfl, h⟩]

lemma uncorrelateSetVar_notMem (P : Mat) (b : IdxDof) (v : ℚ) {i j : ℕ}
    (hi : ¬inB b i) (hj : ¬inB b j) : uncorrelateSetVar P b v i j = P i j := by
  unfold uncorrelateSetVar
  rw [if_neg hi, if_neg hj]

lemma uncorrelateSetVar_diag (P : Mat) (b : IdxDof) (v : ℚ) {i : ℕ}
    (h : inB b i) : uncorrelateSetVar P b v i i = v := by
  unfold uncorrelateSetVar
  rw [if_pos h, if_pos rfl]

lemma uncorrelateSetVar_zero (P : Mat) (b : IdxDof) (v : ℚ) {i j : ℕ}
    (h : inB b i ∨ inB b j) (hne : i ≠ j) : uncorrelateSetVar P b v i j = 0 := by
  unfold uncorrelateSetVar
  by_cases hi : inB b i
  · rw [if_pos hi, if_neg hne]
  · rw [if_neg hi, if_pos (h.resolve_left hi)]

lemma uncorrelateSetVar1_ne (P : Mat) (k : ℕ) (v : ℚ) {i j : ℕ}
    (hi : i ≠ k) (hj : j ≠ k) : uncorrelateSetVar1 P k v i j = P i j := by
  unfold uncorrelateSetVar1
  rw [if_neg hi, if_neg hj]

lemma uncorrelateSetVar1_diag (P : Mat) (k : ℕ) (v : ℚ) :
    uncorrelateSetVar1 P k v k k = v := by
  unfold uncorrelateSetVar1
  rw [if_pos rfl, if_pos rfl]

lemma uncorrelateSetVar1_zero (P : Mat) (k : ℕ) (v : ℚ) {i j : ℕ}
    (h : i = k ∨ j = k) (hne : i ≠ j) : uncorrelateSetVar1 P k v i j = 0 := by
  unfold uncorrelateSetVar1
  by_cases hi : i = k
  · rw [if_pos hi, if_neg (by omega)]
  · rw [if_neg hi, if_pos (h.resolve_left hi)]

lemma addDiag_ne (P : Mat) (k : ℕ) (q : ℚ) {i j : ℕ}
    (h : ¬(i = k ∧ j = k)) : addDiag P k q i j = P i j := by
  unfold addDiag
  rw [if_neg h]

lemma addDiag_diag (P : Mat) (k : ℕ) (q : ℚ) : addDiag P k q k k = P k k + q := by
  unfold addDiag
  rw [if_pos ⟨rfl, rfl⟩]

lemma addDiagBlock_offdiag (b : IdxDof) (q : ℚ) (P : Mat) {i j : ℕ}
    (h : i ≠ j) : addDiagBlock b q P i j = P i j := by
  unfold addDiagBlock
  rw [if_neg (by tauto)]

lemma addDiagBlock_notMem (b : IdxDof) (q : ℚ) (P : Mat) {i : ℕ} (j : ℕ)
    (h : ¬inB b i) : addDiagBlock b q P i j = P i j := by
  unfold addDiagBlock
  rw [if_neg (by tauto)]

lemma addDiagBlock_diag (b : IdxDof) (q : ℚ) (P : Mat) {i : ℕ}
    (h : inB b i) : addDiagBlock b q P i i = P i i + q := by
  unfold addDiagBlock
  rw [if_pos ⟨rfl, h⟩]

/-- The symmetrisation pass never changes a diagonal entry. -/
lemma makeRowColSymmetric_diag (b : IdxDof) (P : Mat) (i : ℕ) :
    makeRowColSymmetric b P i i = P i i := by
  unfold makeRowColSymmetric
  split_ifs <;> rfl

lemma makeRowColSymmetric_notMem (b : IdxDof) (P : Mat) {i j : ℕ}
    (hi : ¬inB b i) (hj : ¬inB b j) : makeRowColSymmetric b P i j = P i j := by
  unfold makeRowColSymmetric
  rw [if_neg (by tauto)]

lemma accelClamp_offdiag (e : Env) (m : ℚ) (P : Mat) {i j : ℕ}
    (h : i ≠ j) : accelClamp e m P i j = P i j := by
  unfold accelClamp
  rw [if_neg (by tauto)]

lemma accelClamp_notMem (e : Env) (m : ℚ) (P : Mat) {i : ℕ} (j : ℕ)
    (h : ¬inB State.accel_bias i) : accelClamp e m P i j = P i j := by
  unfold accelClamp
  rw [if_neg (by tauto)]

lemma accelClamp_diag_inhibited (e : Env) (m : ℚ) (P : Mat) {i : ℕ}
    (h : e.accel_bias_inhibit (i - State.accel_bias.idx) = true) :
    accelClamp e m P i i = P i i := by
  unfold accelClamp
  rw [if_neg (by simp [h])]

lemma accelClamp_diag_active (e : Env) (m : ℚ) (P : Mat) {i : ℕ}
    (h : inB State.accel_bias i)
    (ha : e.accel_bias_inhibit (i - State.accel_bias.idx) = false) :
    accelClamp e m P i i = constrain (P i i) m accelBiasVarMax := by
  unfold accelClamp
  rw [if_pos ⟨rfl, h, ha⟩]

/-- Entries outside the accel-bias rows and columns are untouched by the
accel-bias section. -/
lemma accelBiasFix_notMem (e : Env) (P : Mat) {i j : ℕ}
    (hi : ¬inB State.accel_bias i) (hj : ¬inB State.accel_bias j) :
    accelBiasFix e P i j = P i j := by
  simp only [accelBiasFix]
  split_ifs with h1 h2
  · rw [resetAccelBiasCov, uncorrelateSetVar_notMem _ _ _ hi hj,
      accelClamp_notMem _ _ _ _ hi]
  · rw [accelClamp_notMem _ _ _ _ hi]
  · rfl

/-- The accel-bias section is skipped entirely when all three axes are
inhibited. -/
lemma accelBiasFix_allInhibited (e : Env) (P : Mat)
    (h0 : e.accel_bias_inhibit 0 = true) (h1 : e.accel_bias_inhibit 1 = true)
    (h2 : e.accel_bias_inhibit 2 = true) : accelBiasFix e P = P := by
  simp only [accelBiasFix]
  rw [if_neg (by simp [h0, h1, h2])]

/-- The symmetrisation stage never changes a diagonal entry. -/
lemma fixSymStage_diag (fs : Bool) (P : Mat) (i : ℕ) :
    fixSymStage fs P i i = P i i := by
  simp only [fixSymStage]
  split_ifs with h
  · simp only [makeRowColSymmetric_diag]
  · rfl

/-- Entries outside the magnetic-field rows and columns are untouched by
the magnetic-field gating stage. -/
lemma fixMagStage_notMem (fs : Bool) (e : Env) (P : Mat) {i j : ℕ}
    (hiI : ¬inB State.mag_I i) (hiB : ¬inB State.mag_B i)
    (hjI : ¬inB State.mag_I j) (hjB : ¬inB State.mag_B j) :
    fixMagStage fs e P i j = P i j := by
  simp only [fixMagStage]
  split_ifs with h1 h2
  · rw [makeRowColSymmetric_notMem _ _ hiB hjB, makeRowColSymmetric_notMem _ _ hiI hjI,
      constrainStateVar_notMem _ _ _ _ _ hiB, constrainStateVar_notMem _ _ _ _ _ hiI]
  · rw [constrainStateVar_notMem _ _ _ _ _ hiB, constrainStateVar_notMem _ _ _ _ _ hiI]
  · rw [uncorrelateSetVar_notMem _ _ _ hiB hjB, uncorrelateSetVar_notMem _ _ _ hiI hjI]

/-- Entries outside the wind rows and columns are untouched by the wind
gating stage. -/
lemma fixWindStage_notMem (fs : Bool) (e : Env) (P : Mat) {i j : ℕ}
    (hi : ¬inB State.wind_vel i) (hj : ¬inB State.wind_vel j) :
    fixWindStage fs e P i j = P i j := by
  simp only [fixWindStage]
  split_ifs with h1 h2
  · rw [makeRowColSymmetric_notMem _ _ hi hj, constrainStateVar_notMem _ _ _ _ _ hi]
  · rw [constrainStateVar_notMem _ _ _ _ _ hi]
  · rw [uncorrelateSetVar_notMem _ _ _ hi hj]

/-! ### Diagonal tracking through fixCovarianceErrors -/

lemma constrainCore_offdiag (P : Mat) {i j : ℕ} (h : i ≠ j) :
    constrainCore P i j = P i j := by
  unfold constrainCore
  rw [constrainStateVar_offdiag _ _ _ _ h, constrainStateVar_offdiag _ _ _ _ h,
    constrainStateVar_offdiag _ _ _ _ h, constrainStateVar_offdiag _ _ _ _ h]

lemma constrainCore_notMem (P : Mat) {i : ℕ} (j : ℕ)
    (hq : ¬inB State.quat_nominal i) (hv : ¬inB State.vel i)
    (hp : ¬inB State.pos i) (hg : ¬inB State.gyro_bias i) :
    constrainCore P i j = P i j := by
  unfold constrainCore
  rw [constrainStateVar_notMem _ _ _ _ _ hg, constrainStateVar_notMem _ _ _ _ _ hp,
    constrainStateVar_notMem _ _ _ _ _ hv, constrainStateVar_notMem _ _ _ _ _ hq]

lemma constrainCore_diag_quat (P : Mat) {i : ℕ} (hi : inB State.quat_nominal i) :
    constrainCore P i i = constrain (P i i) 0 1 := by
  have hv : ¬inB State.vel i := by
    rw [inB_quat] at hi
    rw [inB_vel]
    omega
  have hp : ¬inB State.pos i := by
    rw [inB_quat] at hi
    rw [inB_pos]
    omega
  have hg : ¬inB State.gyro_bias i := by
    rw [inB_quat] at hi
    rw [inB_gyro]
    omega
  unfold constrainCore
  rw [constrainStateVar_notMem _ _ _ _ _ hg, constrainStateVar_notMem _ _ _ _ _ hp,
    constrainStateVar_notMem _ _ _ _ _ hv, constrainStateVar_diag _ _ _ _ hi]

lemma constrainCore_diag_vel (P : Mat) {i : ℕ} (hi : inB State.vel i) :
    constrainCore P i i = constrain (P i i) (1/1000000) 1000000 := by
  have hq : ¬inB State.quat_nominal i := by
    rw [inB_vel] at hi
    rw [inB_quat]
    omega
  have hp : ¬inB State.pos i := by
    rw [inB_vel] at hi
    rw [inB_pos]
    omega
  have hg : ¬inB State.gyro_bias i := by
    rw [inB_vel] at hi
    rw [inB_gyro]
    omega
  unfold constrainCore
  rw [constrainStateVar_notMem _ _ _ _ _ hg, constrainStateVar_notMem _ _ _ _ _ hp,
    constrainStateVar_diag _ _ _ _ hi, constrainStateVar_notMem _ _ _ _ _ hq]

lemma constrainCore_diag_pos (P : Mat) {i : ℕ} (hi : inB State.pos i) :
    constrainCore P i i = constrain (P i i) (1/1000000) 1000000 := by
  have hq : ¬inB State.quat_nominal i := by
    rw [inB_pos] at hi
    rw [inB_quat]
    omega
  have hv : ¬inB State.vel i := by
    rw [inB_pos] at hi
    rw [inB_vel]
    omega
  have hg : ¬inB State.gyro_bias i := by
    rw [inB_pos] at hi
    rw [inB_gyro]
    omega
  unfold constrainCore
  rw [constrainStateVar_notMem _ _ _ _ _ hg, constrainStateVar_diag _ _ _ _ hi,
    constrainStateVar_notMem _ _ _ _ _ hv, constrainStateVar_notMem _ _ _ _ _ hq]

lemma constrainCore_diag_gyro (P : Mat) {i : ℕ} (hi : inB State.gyro_bias i) :
    constrainCore P i i = constrain (P i i) 0 1 := by
  have hq : ¬inB State.quat_nominal i := by
    rw [inB_gyro] at hi
    rw [inB_quat]
    omega
  have hv : ¬inB State.vel i := by
    rw [inB_gyro] at hi
    rw [inB_vel]
    omega
  have hp : ¬inB State.pos i := by
    rw [inB_gyro] at hi
    rw [inB_pos]
    omega
  unfold constrainCore
  rw [constrainStateVar_diag _ _ _ _ hi, constrainStateVar_notMem _ _ _ _ _ hp,
    constrainStateVar_notMem _ _ _ _ _ hv, constrainStateVar_notMem _ _ _ _ _ hq]

/-- Diagonal of an attitude state after `fixCovarianceErrors`. -/
lemma fix_diag_quat (fs : Bool) (e : Env) (P : Mat) {i : ℕ}
    (hi : inB State.quat_nominal i) :
    fixCovarianceErrors fs e P i i = constrain (P i i) 0 1 := by
  have hie : i < 3 := (inB_quat i).mp hi
  have ha : ¬inB State.accel_bias i := by
    rw [inB_accel]
    omega
  have hmI : ¬inB State.mag_I i := by
    rw [inB_magI]
    omega
  have hmB : ¬inB State.mag_B i := by
    rw [inB_magB]
    omega
  have hw : ¬inB State.wind_vel i := by
    rw [inB_wind]
    omega
  unfold fixCovarianceErrors fixCoreStage
  rw [fixWindStage_notMem _ _ _ hw hw, fixMagStage_notMem _ _ _ hmI hmB hmI hmB,
    fixSymStage_diag, accelBiasFix_notMem _ _ ha ha, constrainCore_diag_quat _ hi]

/-- Diagonal of a velocity state after `fixCovarianceErrors`. -/
lemma fix_diag_vel (fs : Bool) (e : Env) (P : Mat) {i : ℕ}
    (hi : inB State.vel i) :
    fixCovarianceErrors fs e P i i = constrain (P i i) (1/1000000) 1000000 := by
  have hie : 3 ≤ i ∧ i < 6 := (inB_vel i).mp hi
  have ha : ¬inB State.accel_bias i := by
    rw [inB_accel]
    omega
  have hmI : ¬inB State.mag_I i := by
    rw [inB_magI]
    omega
  have hmB : ¬inB State.mag_B i := by
    rw [inB_magB]
    omega
  have hw : ¬inB State.wind_vel i := by
    rw [inB_wind]
    omega
  unfold fixCovarianceErrors fixCoreStage
  rw [fixWindStage_notMem _ _ _ hw hw, fixMagStage_notMem _ _ _ hmI hmB hmI hmB,
    fixSymStage_diag, accelBiasFix_notMem _ _ ha ha, constrainCore_diag_vel _ hi]

/-- Diagonal of a position state after `fixCovarianceErrors`. -/
lemma fix_diag_pos (fs : Bool) (e : Env) (P : Mat) {i : ℕ}
    (hi : inB State.pos i) :
    fixCovarianceErrors fs e P i i = constrain (P i i) (1/1000000) 1000000 := by
  have hie : 6 ≤ i ∧ i < 9 := (inB_pos i).mp hi
  have ha : ¬inB State.accel_bias i := by
    rw [inB_accel]
    omega
  have hmI : ¬inB State.mag_I i := by
    rw [inB_magI]
    omega
  have hmB : ¬inB State.mag_B i := by
    rw [inB_magB]
    omega
  have hw : ¬inB State.wind_vel i := by
    rw [inB_wind]
    omega
  unfold fixCovarianceErrors fixCoreStage
  rw [fixWindStage_notMem _ _ _ hw hw, fixMagStage_notMem _ _ _ hmI hmB hmI hmB,
    fixSymStage_diag, accelBiasFix_notMem _ _ ha ha, constrainCore_diag_pos _ hi]

/-- Diagonal of a gyro-bias state after `fixCovarianceErrors`. -/
lemma fix_diag_gyro (fs : Bool) (e : Env) (P : Mat) {i : ℕ}
    (hi : inB State.gyro_bias i) :
    fixCovarianceErrors fs e P i i = constrain (P i i) 0 1 := by
  have hie : 9 ≤ i ∧ i < 12 := (inB_gyro i).mp hi
  have ha : ¬inB State.accel_bias i := by
    rw [inB_accel]
    omega
  have hmI : ¬inB State.mag_I i := by
    rw [inB_magI]
    omega
  have hmB : ¬inB State.mag_B i := by
    rw [inB_magB]
    omega
  have hw : ¬inB State.wind_vel i := by
    rw [inB_wind]
    omega
  unfold fixCovarianceErrors fixCoreStage
  rw [fixWindStage_notMem _ _ _ hw hw, fixMagStage_notMem _ _ _ hmI hmB hmI hmB,
    fixSymStage_diag, accelBiasFix_notMem _ _ ha ha, constrainCore_diag_gyro _ hi]

/-- Diagonal of an earth-field state after `fixCovarianceErrors` with
magnetometer fusion active. -/
lemma fix_diag_magI (fs : Bool) (e : Env) (P : Mat) {i : ℕ}
    (hi : inB State.mag_I i) (hmag : e.flags.mag = true) :
    fixCovarianceErrors fs e P i i = constrain (P i i) 0 1 := by
  have hie : 15 ≤ i ∧ i < 18 := (inB_magI i).mp hi
  have hq : ¬inB State.quat_nominal i := by
    rw [inB_quat]
    omega
  have hv : ¬inB State.vel i := by
    rw [inB_vel]
    omega
  have hp : ¬inB State.pos i := by
    rw [inB_pos]
    omega
  have hg : ¬inB State.gyro_bias i := by
    rw [inB_gyro]
    omega
  have ha : ¬inB State.accel_bias i := by
    rw [inB_accel]
    omega
  have hmB : ¬inB State.mag_B i := by
    rw [inB_magB]
    omega
  have hw : ¬inB State.wind_vel i := by
    rw [inB_wind]
    omega
  unfold fixCovarianceErrors fixCoreStage fixMagStage
  rw [fixWindStage_notMem _ _ _ hw hw, if_pos hmag]
  have hstep : ∀ Q : Mat,
      (if fs then makeRowColSymmetric State.mag_B (makeRowColSymmetric State.mag_I Q)
       else Q) i i = Q i i := by
    intro Q
    split_ifs with h
    · rw [makeRowColSymmetric_diag, makeRowColSymmetric_diag]
    · rfl
  rw [hstep, constrainStateVar_notMem _ _ _ _ _ hmB, constrainStateVar_diag _ _ _ _ hi,
    fixSymStage_diag, accelBiasFix_notMem _ _ ha ha, constrainCore_notMem _ _ hq hv hp hg]

/-- Diagonal of a body-field state after `fixCovarianceErrors` with
magnetometer fusion active. -/
lemma fix_diag_magB (fs : Bool) (e : Env) (P : Mat) {i : ℕ}
    (hi : inB State.mag_B i) (hmag : e.flags.mag = true) :
    fixCovarianceErrors fs e P i i = constrain (P i i) 0 1 := by
  have hie : 18 ≤ i ∧ i < 21 := (inB_magB i).mp hi
  have hq : ¬inB State.quat_nominal i := by
    rw [inB_quat]
    omega
  have hv : ¬inB State.vel i := by
    rw [inB_vel]
    omega
  have hp : ¬inB State.pos i := by
    rw [inB_pos]
    omega
  have hg : ¬inB State.gyro_bias i := by
    rw [inB_gyro]
    omega
  have ha : ¬inB State.accel_bias i := by
    rw [inB_accel]
    omega
  have hmI : ¬inB State.mag_I i := by
    rw [inB_magI]
    omega
  have hw : ¬inB State.wind_vel i := by
    rw [inB_wind]
    omega
  unfold fixCovarianceErrors fixCoreStage fixMagStage
  rw [fixWindStage_notMem _ _ _ hw hw, if_pos hmag]
  have hstep : ∀ Q : Mat,
      (if fs then makeRowColSymmetric State.mag_B (makeRowColSymmetric State.mag_I Q)
       else Q) i i = Q i i := by
    intro Q
    split_ifs with h
    · rw [makeRowColSymmetric_diag, makeRowColSymmetric_diag]
    · rfl
  rw [hstep, constrainStateVar_diag _ _ _ _ hi, constrainStateVar_notMem _ _ _ _ _ hmI,
    fixSymStage_diag, accelBiasFix_notMem _ _ ha ha, constrainCore_notMem _ _ hq hv hp hg]

/-- Diagonal of a wind state after `fixCovarianceErrors` with wind
estimation active. -/
lemma fix_diag_wind (fs : Bool) (e : Env) (P : Mat) {i : ℕ}
    (hi : inB State.wind_vel i) (hwind : e.flags.wind = true) :
    fixCovarianceErrors fs e P i i = constrain (P i i) 0 1000000 := by
  have hie : 21 ≤ i ∧ i < 23 := (inB_wind i).mp hi
  have hq : ¬inB State.quat_nominal i := by
    rw [inB_quat]
    omega
  have hv : ¬inB State.vel i := by
    rw [inB_vel]
    omega
  have hp : ¬inB State.pos i := by
    rw [inB_pos]
    omega
  have hg : ¬inB State.gyro_bias i := by
    rw [inB_gyro]
    omega
  have ha : ¬inB State.accel_bias i := by
    rw [inB_accel]
    omega
  have hmI : ¬inB State.mag_I i := by
    rw [inB_magI]
    omega
  have hmB : ¬inB State.mag_B i := by
    rw [inB_magB]
    omega
  unfold fixCovarianceErrors fixWindStage
  rw [if_pos hwind]
  have hstep : ∀ Q : Mat,
      (if fs then makeRowColSymmetric State.wind_vel Q else Q) i i = Q i i := by
    intro Q
    split_ifs with h
    · rw [makeRowColSymmetric_diag]
    · rfl
  rw [hstep, constrainStateVar_diag _ _ _ _ hi,
    fixMagStage_notMem _ _ _ hmI hmB hmI hmB, fixSymStage_diag]
  unfold fixCoreStage
  rw [accelBiasFix_notMem _ _ ha ha, constrainCore_notMem _ _ hq hv hp hg]

/-! ### The accel-bias scan and clamp -/

lemma range_accel_dof : List.range State.accel_bias.dof = [0, 1, 2] := rfl

lemma accel_idx_eq : State.accel_bias.idx = 12 := rfl

/-- The scan accumulator's running maximum never decreases. -/
lemma accelScanGo_fst_ge (e : Env) (P : Mat) :
    ∀ (L : List ℕ) (acc : ℚ × Bool), acc.1 ≤ (L.foldl (accelScanStep e P) acc).1 := by
  intro L
  induction L with
  | nil => intro acc; exact le_refl _
  | cons x xs ih =>
    intro acc
    refine le_trans ?_ (ih (accelScanStep e P acc x))
    unfold accelScanStep
    split_ifs with h1 h2 h3
    · exact le_refl _
    · exact le_of_lt h2
    · exact le_refl _
    · exact le_refl _

/-- A processed non-inhibited axis's variance is bounded by the step's
running maximum. -/
lemma accelScanStep_le (e : Env) (P : Mat) (acc : ℚ × Bool) (k : ℕ)
    (hni : e.accel_bias_inhibit k = false) :
    P (State.accel_bias.idx + k) (State.accel_bias.idx + k) ≤ (accelScanStep e P acc k).1 := by
  unfold accelScanStep
  rw [if_neg (by simp [hni])]
  split_ifs with h1 h2
  · exact le_refl _
  · linarith [not_lt.mp h1]
  · linarith [not_lt.mp h1]

/-- Every non-inhibited axis's variance is bounded by the final scan
maximum. -/
lemma accelScan_le_fst (e : Env) (P : Mat) (k : ℕ) (hk : k < 3)
    (hni : e.accel_bias_inhibit k = false) :
    P (State.accel_bias.idx + k) (State.accel_bias.idx + k) ≤ (accelScan e P).1 := by
  unfold accelScan
  rw [range_accel_dof]
  have mono := accelScanGo_fst_ge e P
  interval_cases k
  · simp only [List.foldl_cons, List.foldl_nil]
    exact le_trans (accelScanStep_le e P _ 0 hni) (mono [1, 2] _)
  · simp only [List.foldl_cons, List.foldl_nil]
    exact le_trans (accelScanStep_le e P _ 1 hni) (mono [2] _)
  · simp only [List.foldl_cons, List.foldl_nil]
    exact accelScanStep_le e P _ 2 hni

/-- The scan maximum never falls below its seed, the minimum safe
variance. -/
lemma accelScan_fst_ge (e : Env) (P : Mat) :
    minSafeStateVar e ≤ (accelScan e P).1 :=
  accelScanGo_fst_ge e P _ _

/-- Invariant form of the reset flag computed by the scan: the flag is
raised exactly when some processed non-inhibited axis lies strictly
below the minimum safe variance. -/
lemma accelScanGo_snd (e : Env) (P : Mat) :
    ∀ (L : List ℕ) (acc : ℚ × Bool), minSafeStateVar e ≤ acc.1 →
      ((L.foldl (accelScanStep e P) acc).2 = true ↔
        acc.2 = true ∨ ∃ k ∈ L, e.accel_bias_inhibit k = false ∧
          P (State.accel_bias.idx + k) (State.accel_bias.idx + k) < minSafeStateVar e) := by
  intro L
  induction L with
  | nil =>
    intro acc hacc
    simp
  | cons x xs ih =>
    intro acc hacc
    simp only [List.foldl_cons]
    by_cases hin : e.accel_bias_inhibit x = true
    · rw [show accelScanStep e P acc x = acc by unfold accelScanStep; rw [if_pos hin]]
      rw [ih acc hacc]
      simp only [List.mem_cons]
      constructor
      · rintro (h | ⟨k, hk, hni, hlt⟩)
        · exact Or.inl h
        · exact Or.inr ⟨k, Or.inr hk, hni, hlt⟩
      · rintro (h | ⟨k, (rfl | hk), hni, hlt⟩)
        · exact Or.inl h
        · rw [hin] at hni
          cases hni
        · exact Or.inr ⟨k, hk, hni, hlt⟩
    · have hni : e.accel_bias_inhibit x = false := by
        cases h : e.accel_bias_inhibit x
        · rfl
        · exact absurd h hin
      by_cases hlt : acc.1 < P (State.accel_bias.idx + x) (State.accel_bias.idx + x)
      · rw [show accelScanStep e P acc x =
            (P (State.accel_bias.idx + x) (State.accel_bias.idx + x), acc.2) by
          unfold accelScanStep
          rw [if_neg (by simp [hni]), if_pos hlt]]
        rw [ih _ (by simpa using le_trans hacc (le_of_lt hlt))]
        simp only [List.mem_cons]
        have hxge : ¬(P (State.accel_bias.idx + x) (State.accel_bias.idx + x) <
            minSafeStateVar e) := by
          push_neg
          linarith
        constructor
        · rintro (h | ⟨k, hk, hni2, hlt2⟩)
          · exact Or.inl h
          · exact Or.inr ⟨k, Or.inr hk, hni2, hlt2⟩
        · rintro (h | ⟨k, (rfl | hk), hni2, hlt2⟩)
          · exact Or.inl h
          · exact absurd hlt2 hxge
          · exact Or.inr ⟨k, hk, hni2, hlt2⟩
      · by_cases hsm : P (State.accel_bias.idx + x) (State.accel_bias.idx + x) <
            minSafeStateVar e
        · rw [show accelScanStep e P acc x = (acc.1, true) by
            unfold accelScanStep
            rw [if_neg (by simp [hni]), if_neg hlt, if_pos hsm]]
          rw [ih _ (by simpa using hacc)]
          simp only [List.mem_cons]
          constructor
          · intro h
            exact Or.inr ⟨x, Or.inl rfl, hni, hsm⟩
          · intro h
            left
            trivial
        · rw [show accelScanStep e P acc x = acc by
            unfold accelScanStep
            rw [if_neg (by simp [hni]), if_neg hlt, if_neg hsm]]
          rw [ih acc hacc]
          simp only [List.mem_cons]
          constructor
          · rintro (h | ⟨k, hk, hni2, hlt2⟩)
            · exact Or.inl h
            · exact Or.inr ⟨k, Or.inr hk, hni2, hlt2⟩
          · rintro (h | ⟨k, (rfl | hk), hni2, hlt2⟩)
            · exact Or.inl h
            · exact absurd hlt2 hsm
            · exact Or.inr ⟨k, hk, hni2, hlt2⟩

/-- The reset flag is raised exactly when some non-inhibited axis lies
strictly below the minimum safe variance. -/
lemma accelScan_snd_iff (e : Env) (P : Mat) :
    (accelScan e P).2 = true ↔
      ∃ k, k < 3 ∧ e.accel_bias_inhibit k = false ∧
        P (State.accel_bias.idx + k) (State.accel_bias.idx + k) < minSafeStateVar e := by
  unfold accelScan
  rw [range_accel_dof, accelScanGo_snd e P [0, 1, 2] _ (le_refl _)]
  constructor
  · rintro (h | ⟨k, hk, hni, hlt⟩)
    · cases h
    · refine ⟨k, ?_, hni, hlt⟩
      fin_cases hk <;> omega
  · rintro ⟨k, hk, hni, hlt⟩
    refine Or.inr ⟨k, ?_, hni, hlt⟩
    interval_cases k <;> simp

/-- The scan only reads the accel-bias diagonal entries. -/
lemma accelScan_congr (e : Env) (P Q : Mat)
    (h : ∀ k, k < 3 →
      P (State.accel_bias.idx + k) (State.accel_bias.idx + k) =
        Q (State.accel_bias.idx + k) (State.accel_bias.idx + k)) :
    accelScan e P = accelScan e Q := by
  have h0 := h 0 (by omega)
  have h1 := h 1 (by omega)
  have h2 := h 2 (by omega)
  unfold accelScan
  rw [range_accel_dof]
  simp only [List.foldl_cons, List.foldl_nil]
  unfold accelScanStep
  rw [h0, h1, h2]

/-- The accel-bias diagonal after the accel-bias section: reset to the
startup variance when the reset flag was raised, clamped otherwise. -/
lemma accelBiasFix_diag (e : Env) (Q : Mat) (a : ℕ) (ha : a < 3)
    (hguard : e.accel_bias_inhibit 0 = false ∨ e.accel_bias_inhibit 1 = false ∨
      e.accel_bias_inhibit 2 = false)
    (hax : e.accel_bias_inhibit a = false) :
    accelBiasFix e Q (State.accel_bias.idx + a) (State.accel_bias.idx + a) =
      if (accelScan e Q).2 = true then sq e.p.switch_on_accel_bias
      else constrain (Q (State.accel_bias.idx + a) (State.accel_bias.idx + a))
        (max ((1/100) * (accelScan e Q).1) (minStateVarTarget e)) accelBiasVarMax := by
  have hmem : inB State.accel_bias (State.accel_bias.idx + a) := by
    rw [accel_idx_eq, inB_accel]
    omega
  simp only [accelBiasFix]
  rw [if_pos (by rcases hguard with h | h | h <;> simp [h])]
  by_cases hreset : (accelScan e Q).2 = true
  · rw [if_pos hreset, if_pos hreset, resetAccelBiasCov, uncorrelateSetVar_diag _ _ _ hmem]
  · rw [if_neg hreset, if_neg hreset,
      accelClamp_diag_active _ _ _ hmem (by simpa [accel_idx_eq] using hax)]

/-- When the reset flag was raised, the accel-bias section resets every
axis of the block — inhibited axes included — to the startup variance. -/
lemma accelBiasFix_diag_reset (e : Env) (Q : Mat) (a : ℕ) (ha : a < 3)
    (hguard : e.accel_bias_inhibit 0 = false ∨ e.accel_bias_inhibit 1 = false ∨
      e.accel_bias_inhibit 2 = false)
    (hreset : (accelScan e Q).2 = true) :
    accelBiasFix e Q (State.accel_bias.idx + a) (State.accel_bias.idx + a) =
      sq e.p.switch_on_accel_bias := by
  have hmem : inB State.accel_bias (State.accel_bias.idx + a) := by
    rw [accel_idx_eq, inB_accel]
    omega
  simp only [accelBiasFix]
  rw [if_pos (by rcases hguard with h | h | h <;> simp [h]), if_pos hreset,
    resetAccelBiasCov, uncorrelateSetVar_diag _ _ _ hmem]

/-- Diagonal of any accel-bias state after `fixCovarianceErrors` when the
reset flag was raised: the startup variance, for inhibited axes too. -/
lemma fix_diag_accel_reset (fs : Bool) (e : Env) (P : Mat) (a : ℕ) (ha : a < 3)
    (hguard : e.accel_bias_inhibit 0 = false ∨ e.accel_bias_inhibit 1 = false ∨
      e.accel_bias_inhibit 2 = false)
    (hreset : (accelScan e P).2 = true) :
    fixCovarianceErrors fs e P (State.accel_bias.idx + a) (State.accel_bias.idx + a) =
      sq e.p.switch_on_accel_bias := by
  have hcc : ∀ k, k < 3 →
      constrainCore P (State.accel_bias.idx + k) (State.accel_bias.idx + k) =
        P (State.accel_bias.idx + k) (State.accel_bias.idx + k) := by
    intro k hk
    refine constrainCore_notMem _ _ ?_ ?_ ?_ ?_ <;>
      rw [accel_idx_eq] <;> [rw [inB_quat]; rw [inB_vel]; rw [inB_pos]; rw [inB_gyro]] <;> omega
  have hw : ¬inB State.wind_vel (State.accel_bias.idx + a) := by
    rw [accel_idx_eq, inB_wind]
    omega
  have hmI : ¬inB State.mag_I (State.accel_bias.idx + a) := by
    rw [accel_idx_eq, inB_magI]
    omega
  have hmB : ¬inB State.mag_B (State.accel_bias.idx + a) := by
    rw [accel_idx_eq, inB_magB]
    omega
  unfold fixCovarianceErrors fixCoreStage
  rw [fixWindStage_notMem _ _ _ hw hw, fixMagStage_notMem _ _ _ hmI hmB hmI hmB,
    fixSymStage_diag,
    accelBiasFix_diag_reset e _ a ha hguard
      (by rw [accelScan_congr e (constrainCore P) P hcc]; exact hreset)]

/-- Diagonal of a non-inhibited accel-bias state after
`fixCovarianceErrors`, with at least one axis active. -/
lemma fix_diag_accel (fs : Bool) (e : Env) (P : Mat) (a : ℕ) (ha : a < 3)
    (hguard : e.accel_bias_inhibit 0 = false ∨ e.accel_bias_inhibit 1 = false ∨
      e.accel_bias_inhibit 2 = false)
    (hax : e.accel_bias_inhibit a = false) :
    fixCovarianceErrors fs e P (State.accel_bias.idx + a) (State.accel_bias.idx + a) =
      if (accelScan e P).2 = true then sq e.p.switch_on_accel_bias
      else constrain (P (State.accel_bias.idx + a) (State.accel_bias.idx + a))
        (max ((1/100) * (accelScan e P).1) (minStateVarTarget e)) accelBiasVarMax := by
  have hcc : ∀ k, k < 3 →
      constrainCore P (State.accel_bias.idx + k) (State.accel_bias.idx + k) =
        P (State.accel_bias.idx + k) (State.accel_bias.idx + k) := by
    intro k hk
    refine constrainCore_notMem _ _ ?_ ?_ ?_ ?_ <;>
      rw [accel_idx_eq] <;> [rw [inB_quat]; rw [inB_vel]; rw [inB_pos]; rw [inB_gyro]] <;> omega
  have hw : ¬inB State.wind_vel (State.accel_bias.idx + a) := by
    rw [accel_idx_eq, inB_wind]
    omega
  have hmI : ¬inB State.mag_I (State.accel_bias.idx + a) := by
    rw [accel_idx_eq, inB_magI]
    omega
  have hmB : ¬inB State.mag_B (State.accel_bias.idx + a) := by
    rw [accel_idx_eq, inB_magB]
    omega
  unfold fixCovarianceErrors fixCoreStage
  rw [fixWindStage_notMem _ _ _ hw hw, fixMagStage_notMem _ _ _ hmI hmB hmI hmB,
    fixSymStage_diag, accelBiasFix_diag e _ a ha hguard hax,
    accelScan_congr e (constrainCore P) P hcc, hcc a ha]

/-- The scan maximum is either its seed or one of the processed
non-inhibited variances. -/
lemma accelScanGo_fst_cases (e : Env) (P : Mat) :
    ∀ (L : List ℕ) (acc : ℚ × Bool),
      (L.foldl (accelScanStep e P) acc).1 = acc.1 ∨
        ∃ k ∈ L, e.accel_bias_inhibit k = false ∧
          (L.foldl (accelScanStep e P) acc).1 =
            P (State.accel_bias.idx + k) (State.accel_bias.idx + k) := by
  intro L
  induction L with
  | nil =>
    intro acc
    exact Or.inl rfl
  | cons x xs ih =>
    intro acc
    simp only [List.foldl_cons]
    have hstep : (accelScanStep e P acc x).1 = acc.1 ∨
        (e.accel_bias_inhibit x = false ∧ (accelScanStep e P acc x).1 =
          P (State.accel_bias.idx + x) (State.accel_bias.idx + x)) := by
      unfold accelScanStep
      split_ifs with h1 h2 h3
      · exact Or.inl rfl
      · refine Or.inr ⟨?_, rfl⟩
        cases h : e.accel_bias_inhibit x
        · rfl
        · exact absurd h h1
      · exact Or.inl rfl
      · exact Or.inl rfl
    rcases ih (accelScanStep e P acc x) with h | ⟨k, hk, hni, hEq⟩
    · rw [h]
      rcases hstep with h2 | ⟨hni, h2⟩
      · exact Or.inl h2
      · exact Or.inr ⟨x, List.mem_cons_self x xs, hni, h2⟩
    · exact Or.inr ⟨k, List.mem_cons_of_mem x hk, hni, hEq⟩

/-- The final scan maximum is either the minimum safe variance or one of
the non-inhibited axis variances. -/
lemma accelScan_fst_cases (e : Env) (P : Mat) :
    (accelScan e P).1 = minSafeStateVar e ∨
      ∃ k, k < 3 ∧ e.accel_bias_inhibit k = false ∧
        (accelScan e P).1 =
          P (State.accel_bias.idx + k) (State.accel_bias.idx + k) := by
  unfold accelScan
  rw [range_accel_dof]
  rcases accelScanGo_fst_cases e P [0, 1, 2] (minSafeStateVar e, false) with h | ⟨k, hk, hni, hEq⟩
  · exact Or.inl h
  · refine Or.inr ⟨k, ?_, hni, hEq⟩
    fin_cases hk <;> omega

/-- With all three accel-bias axes inhibited, `fixCovarianceErrors`
leaves every accel-bias diagonal entry unchanged. -/
lemma fix_allAccelInhibited_diag (e : Env) (P : Mat) (fs : Bool)
    (h0 : e.accel_bias_inhibit 0 = true) (h1 : e.accel_bias_inhibit 1 = true)
    (h2 : e.accel_bias_inhibit 2 = true) :
    ∀ k, k < 3 →
      fixCovarianceErrors fs e P (State.accel_bias.idx + k) (State.accel_bias.idx + k) =
        P (State.accel_bias.idx + k) (State.accel_bias.idx + k) := by
  intro k hk
  rw [show State.accel_bias.idx = 12 from rfl]
  have hw : ¬inB State.wind_vel (12 + k) := by
    rw [inB_wind]; omega
  have hmI : ¬inB State.mag_I (12 + k) := by
    rw [inB_magI]; omega
  have hmB : ¬inB State.mag_B (12 + k) := by
    rw [inB_magB]; omega
  have hg : ¬inB State.gyro_bias (12 + k) := by
    rw [inB_gyro]; omega
  have hp : ¬inB State.pos (12 + k) := by
    rw [inB_pos]; omega
  have hv : ¬inB State.vel (12 + k) := by
    rw [inB_vel]; omega
  have hq : ¬inB State.quat_nominal (12 + k) := by
    rw [inB_quat]; omega
  unfold fixCovarianceErrors
  rw [fixWindStage_notMem _ _ _ hw hw, fixMagStage_notMem _ _ _ hmI hmB hmI hmB,
    fixSymStage_diag]
  unfold fixCoreStage
  rw [accelBiasFix_allInhibited e _ h0 h1 h2, constrainCore_notMem _ _ hq hv hp hg]

/-! ### Symmetry -/

lemma symmTouch_mono {s t : ℕ → Prop} (hsub : ∀ i, t i → s i) {P : Mat}
    (h : SymmTouch s P) : SymmTouch t P := by
  intro i j hi hj hs
  refine h i j hi hj ?_
  rcases hs with h' | h'
  · exact Or.inl (hsub _ h')
  · exact Or.inr (hsub _ h')

lemma symmTouch_union {s t : ℕ → Prop} {P : Mat} (h1 : SymmTouch s P)
    (h2 : SymmTouch t P) : SymmTouch (fun i => s i ∨ t i) P := by
  intro i j hi hj hs
  rcases hs with (h' | h') | (h' | h')
  · exact h1 i j hi hj (Or.inl h')
  · exact h2 i j hi hj (Or.inl h')
  · exact h1 i j hi hj (Or.inr h')
  · exact h2 i j hi hj (Or.inr h')

/-- An operation that only changes diagonal entries preserves every
partial symmetry. -/
lemma symmTouch_of_diagOnly (f : Mat → Mat)
    (hf : ∀ (Q : Mat) (i j : ℕ), i ≠ j → f Q i j = Q i j) {s : ℕ → Prop} {P : Mat}
    (h : SymmTouch s P) : SymmTouch s (f P) := by
  intro i j hi hj hs
  by_cases hij : i = j
  · subst hij
    rfl
  · rw [hf P i j hij, hf P j i (Ne.symm hij)]
    exact h i j hi hj hs

lemma symmTouch_constrainStateVar (b : IdxDof) (lo hi : ℚ) {s : ℕ → Prop} {P : Mat}
    (h : SymmTouch s P) : SymmTouch s (constrainStateVar b lo hi P) :=
  symmTouch_of_diagOnly _ (fun _ _ _ hij => constrainStateVar_offdiag _ _ _ _ hij) h

lemma symmTouch_uncorrelateSetVar (b : IdxDof) (v : ℚ) {s : ℕ → Prop} {P : Mat}
    (h : SymmTouch s P) : SymmTouch s (uncorrelateSetVar P b v) := by
  intro i j hi hj hs
  by_cases hij : i = j
  · subst hij
    rfl
  · by_cases hb : inB b i ∨ inB b j
    · rw [uncorrelateSetVar_zero _ _ _ hb hij,
        uncorrelateSetVar_zero _ _ _ (Or.symm hb) (Ne.symm hij)]
    · push_neg at hb
      rw [uncorrelateSetVar_notMem _ _ _ hb.1 hb.2, uncorrelateSetVar_notMem _ _ _ hb.2 hb.1]
      exact h i j hi hj hs

lemma uncorrelateSetVar_touch (P : Mat) (b : IdxDof) (v : ℚ) :
    SymmTouch (fun i => inB b i) (uncorrelateSetVar P b v) := by
  intro i j hi hj hs
  by_cases hij : i = j
  · subst hij
    rfl
  · rw [uncorrelateSetVar_zero _ _ _ hs hij,
      uncorrelateSetVar_zero _ _ _ (Or.symm hs) (Ne.symm hij)]

lemma makeRowColSymmetric_touch (b : IdxDof) (P : Mat) :
    SymmTouch (fun i => inB b i) (makeRowColSymmetric b P) := by
  intro i j hi hj hs
  by_cases hij : i = j
  · subst hij
    rfl
  · unfold makeRowColSymmetric
    rcases lt_or_gt_of_ne hij with hlt | hgt
    · rw [if_pos ⟨hs, hi, hj⟩, if_pos (le_of_lt hlt), if_pos ⟨Or.symm hs, hj, hi⟩,
        if_neg (not_le.mpr hlt)]
    · rw [if_pos ⟨hs, hi, hj⟩, if_neg (not_le.mpr hgt), if_pos ⟨Or.symm hs, hj, hi⟩,
        if_pos (le_of_lt hgt)]

lemma symmTouch_makeRowColSymmetric (b : IdxDof) {s : ℕ → Prop} {P : Mat}
    (h : SymmTouch s P) : SymmTouch s (makeRowColSymmetric b P) := by
  intro i j hi hj hs
  by_cases hb : inB b i ∨ inB b j
  · exact makeRowColSymmetric_touch b P i j hi hj hb
  · push_neg at hb
    rw [makeRowColSymmetric_notMem _ _ hb.1 hb.2, makeRowColSymmetric_notMem _ _ hb.2 hb.1]
    exact h i j hi hj hs

lemma symmTouch_accelBiasFix (e : Env) {s : ℕ → Prop} {P : Mat}
    (h : SymmTouch s P) : SymmTouch s (accelBiasFix e P) := by
  have hclamp : ∀ m, SymmTouch s (accelClamp e m P) := fun m =>
    symmTouch_of_diagOnly _ (fun _ _ _ hij => accelClamp_offdiag _ _ _ hij) h
  simp only [accelBiasFix]
  split_ifs with h1 h2
  · exact symmTouch_uncorrelateSetVar _ _ (hclamp _)
  · exact hclamp _
  · exact h

lemma symmTouch_constrainCore {s : ℕ → Prop} {P : Mat} (h : SymmTouch s P) :
    SymmTouch s (constrainCore P) := by
  unfold constrainCore
  exact symmTouch_constrainStateVar _ _ _ (symmTouch_constrainStateVar _ _ _
    (symmTouch_constrainStateVar _ _ _ (symmTouch_constrainStateVar _ _ _ h)))

lemma symmTouch_fixCoreStage (e : Env) {s : ℕ → Prop} {P : Mat} (h : SymmTouch s P) :
    SymmTouch s (fixCoreStage e P) :=
  symmTouch_accelBiasFix e (symmTouch_constrainCore h)

lemma symmTouch_fixSymStage (fs : Bool) {s : ℕ → Prop} {P : Mat} (h : SymmTouch s P) :
    SymmTouch s (fixSymStage fs P) := by
  unfold fixSymStage
  split_ifs with hfs
  · exact symmTouch_makeRowColSymmetric _ (symmTouch_makeRowColSymmetric _
      (symmTouch_makeRowColSymmetric _ (symmTouch_makeRowColSymmetric _
        (symmTouch_makeRowColSymmetric _ h))))
  · exact h

lemma symmTouch_fixMagStage (fs : Bool) (e : Env) {s : ℕ → Prop} {P : Mat}
    (h : SymmTouch s P) : SymmTouch s (fixMagStage fs e P) := by
  unfold fixMagStage
  split_ifs with h1 h2
  · exact symmTouch_makeRowColSymmetric _ (symmTouch_makeRowColSymmetric _
      (symmTouch_constrainStateVar _ _ _ (symmTouch_constrainStateVar _ _ _ h)))
  · exact symmTouch_constrainStateVar _ _ _ (symmTouch_constrainStateVar _ _ _ h)
  · exact symmTouch_uncorrelateSetVar _ _ (symmTouch_uncorrelateSetVar _ _ h)

lemma symmTouch_fixWindStage (fs : Bool) (e : Env) {s : ℕ → Prop} {P : Mat}
    (h : SymmTouch s P) : SymmTouch s (fixWindStage fs e P) := by
  unfold fixWindStage
  split_ifs with h1 h2
  · exact symmTouch_makeRowColSymmetric _ (symmTouch_constrainStateVar _ _ _ h)
  · exact symmTouch_constrainStateVar _ _ _ h
  · exact symmTouch_uncorrelateSetVar _ _ h

/-- The explicit symmetrisation pass makes the whole stored matrix
symmetric. -/
lemma symmetrize_touch (P : Mat) :
    SymmTouch (fun _ => True) (symmetrizeUpperToLower P) := by
  intro i j hi hj _
  unfold symmetrizeUpperToLower
  rcases lt_trichotomy i j with hlt | rfl | hgt
  · rw [if_neg (by omega), if_pos ⟨hlt, hj⟩]
  · rfl
  · rw [if_pos ⟨hgt, hi⟩, if_neg (by omega)]

/-- The `force_symmetry` pass over the five core blocks symmetrises every
pair touching a core-block index. -/
lemma fixSymStage_true_touch (P : Mat) :
    SymmTouch (fun i => i < 15) (fixSymStage true P) := by
  unfold fixSymStage
  rw [if_pos rfl]
  have s2 := symmTouch_union
    (symmTouch_makeRowColSymmetric State.vel (makeRowColSymmetric_touch State.quat_nominal P))
    (makeRowColSymmetric_touch State.vel (makeRowColSymmetric State.quat_nominal P))
  have s3 := symmTouch_union (symmTouch_makeRowColSymmetric State.pos s2)
    (makeRowColSymmetric_touch State.pos
      (makeRowColSymmetric State.vel (makeRowColSymmetric State.quat_nominal P)))
  have s4 := symmTouch_union (symmTouch_makeRowColSymmetric State.gyro_bias s3)
    (makeRowColSymmetric_touch State.gyro_bias
      (makeRowColSymmetric State.pos
        (makeRowColSymmetric State.vel (makeRowColSymmetric State.quat_nominal P))))
  have s5 := symmTouch_union (symmTouch_makeRowColSymmetric State.accel_bias s4)
    (makeRowColSymmetric_touch State.accel_bias
      (makeRowColSymmetric State.gyro_bias
        (makeRowColSymmetric State.pos
          (makeRowColSymmetric State.vel (makeRowColSymmetric State.quat_nominal P)))))
  refine symmTouch_mono ?_ s5
  intro i hi
  rw [inB_quat, inB_vel, inB_pos, inB_gyro, inB_accel]
  omega

/-- The magnetic-field gating stage extends partial symmetry to the
field blocks. -/
lemma fixMagStage_true_touch (e : Env) {s : ℕ → Prop} {Q : Mat} (h : SymmTouch s Q) :
    SymmTouch (fun i => s i ∨ inB State.mag_I i ∨ inB State.mag_B i)
      (fixMagStage true e Q) := by
  simp only [fixMagStage]
  by_cases h1 : e.flags.mag = true
  · rw [if_pos h1, if_pos trivial]
    have c1 := symmTouch_constrainStateVar State.mag_B 0 1
      (symmTouch_constrainStateVar State.mag_I 0 1 h)
    have t1 := symmTouch_makeRowColSymmetric State.mag_I c1
    have u1 := makeRowColSymmetric_touch State.mag_I
      (constrainStateVar State.mag_B 0 1 (constrainStateVar State.mag_I 0 1 Q))
    have t2 := symmTouch_makeRowColSymmetric State.mag_B (symmTouch_union t1 u1)
    have u2 := makeRowColSymmetric_touch State.mag_B
      (makeRowColSymmetric State.mag_I
        (constrainStateVar State.mag_B 0 1 (constrainStateVar State.mag_I 0 1 Q)))
    refine symmTouch_mono ?_ (symmTouch_union t2 u2)
    tauto
  · rw [if_neg h1]
    have t1 := symmTouch_uncorrelateSetVar State.mag_I 0 h
    have u1 := uncorrelateSetVar_touch Q State.mag_I 0
    have t2 := symmTouch_uncorrelateSetVar State.mag_B 0 (symmTouch_union t1 u1)
    have u2 := uncorrelateSetVar_touch (uncorrelateSetVar Q State.mag_I 0) State.mag_B 0
    refine symmTouch_mono ?_ (symmTouch_union t2 u2)
    tauto

/-- The wind gating stage extends partial symmetry to the wind block. -/
lemma fixWindStage_true_touch (e : Env) {s : ℕ → Prop} {Q : Mat} (h : SymmTouch s Q) :
    SymmTouch (fun i => s i ∨ inB State.wind_vel i) (fixWindStage true e Q) := by
  simp only [fixWindStage]
  by_cases h1 : e.flags.wind = true
  · rw [if_pos h1, if_pos trivial]
    have c1 := symmTouch_constrainStateVar State.wind_vel 0 1000000 h
    have t1 := symmTouch_makeRowColSymmetric State.wind_vel c1
    have u1 := makeRowColSymmetric_touch State.wind_vel
      (constrainStateVar State.wind_vel 0 1000000 Q)
    exact symmTouch_union t1 u1
  · rw [if_neg h1]
    have t1 := symmTouch_uncorrelateSetVar State.wind_vel 0 h
    have u1 := uncorrelateSetVar_touch Q State.wind_vel 0
    exact symmTouch_union t1 u1

/-- `fixCovarianceErrors` with `force_symmetry = true` symmetrises the
whole stored matrix, from an arbitrary starting matrix. -/
lemma fix_true_symm (e : Env) (P : Mat) :
    ∀ i j, i < State.size → j < State.size →
      fixCovarianceErrors true e P i j = fixCovarianceErrors true e P j i := by
  have h5 := fixSymStage_true_touch (fixCoreStage e P)
  have h7 := fixMagStage_true_touch e h5
  have h8 := fixWindStage_true_touch e h7
  intro i j hi hj
  refine h8 i j hi hj (Or.inl ?_)
  show (i < 15 ∨ inB State.mag_I i ∨ inB State.mag_B i) ∨ inB State.wind_vel i
  rw [inB_magI, inB_magB, inB_wind]
  have : i < 23 := hi
  omega

/-- `fixCovarianceErrors` with `force_symmetry = false` preserves
symmetry of the stored matrix. -/
lemma fix_false_symm (e : Env) {Q : Mat}
    (h : SymmTouch (fun _ => True) Q) :
    SymmTouch (fun _ => True) (fixCovarianceErrors false e Q) := by
  unfold fixCovarianceErrors
  exact symmTouch_fixWindStage _ _ (symmTouch_fixMagStage _ _
    (symmTouch_fixSymStage _ (symmTouch_fixCoreStage _ h)))

/-! ### Claim C2 -/

/-- C2: after every `predictCovariance` call the stored matrix is
symmetric (the explicit pass copies each upper-triangle entry
`P(column,row)` with `column < row` onto `P(row,column)` before the
health-enforcement pass, which preserves symmetry), and after every
`fixCovarianceErrors` call with `force_symmetry = true` the stored
matrix is symmetric, from any starting matrix. -/
theorem C2_symmetry :
    (∀ (e : Env) (imu : ImuSample) (trans : Mat → ℚ → (ℕ → ℚ) → Mat) (P : Mat) (i j : ℕ),
      i < State.size → j < State.size →
      predictCovariance e imu trans P i j = predictCovariance e imu trans P j i) ∧
    (∀ (e : Env) (P : Mat) (i j : ℕ), i < State.size → j < State.size →
      fixCovarianceErrors true e P i j = fixCovarianceErrors true e P j i) ∧
    (∀ (Q : Mat) (i j : ℕ), j < i → i < State.size →
      symmetrizeUpperToLower Q i j = Q j i) ∧
    (∀ (e : Env) (imu : ImuSample) (trans : Mat → ℚ → (ℕ → ℚ) → Mat) (P : Mat),
      predictCovariance e imu trans P =
        fixCovarianceErrors false e (symmetrizeUpperToLower (magWindNoiseStep e
          (injectBiasNoise e (trans P (predictGyroVar e.p) (predictAccelVar e imu)))))) := by
  refine ⟨?_, ?_, ?_, fun e imu trans P => rfl⟩
  · intro e imu trans P i j hi hj
    exact fix_false_symm e (symmetrize_touch _) i j hi hj (Or.inl trivial)
  · intro e P i j hi hj
    exact fix_true_symm e P i j hi hj
  · intro Q i j hji hi
    unfold symmetrizeUpperToLower
    rw [if_pos ⟨hji, hi⟩]

/-- Witness for C2 at concrete inputs: starting from an asymmetric
matrix, a prediction produces a symmetric pair, and so does a
`force_symmetry` health-enforcement call. -/
theorem C2_witness :
    predictCovariance exEnv exImuClean exTransId exAsymP 20 2 =
      predictCovariance exEnv exImuClean exTransId exAsymP 2 20 ∧
    fixCovarianceErrors true exEnv exAsymP 17 3 = fixCovarianceErrors true exEnv exAsymP 3 17 :=
  ⟨C2_symmetry.1 exEnv exImuClean exTransId exAsymP 20 2 (by decide) (by decide),
   C2_symmetry.2.1 exEnv exAsymP 17 3 (by decide) (by decide)⟩

/-! ### Bias process-noise injection -/

lemma gyro_idx_eq : State.gyro_bias.idx = 9 := rfl

lemma range_gyro_dof : List.range State.gyro_bias.dof = [0, 1, 2] := rfl

lemma biasAxisStep_ne (inhibit : ℕ → Bool) (prev : ℕ → ℚ) (b : IdxDof) (pnoise : ℚ)
    (P : Mat) (k : ℕ) {i j : ℕ} (hi : i ≠ b.idx + k) (hj : j ≠ b.idx + k) :
    biasAxisStep inhibit prev b pnoise P k i j = P i j := by
  unfold biasAxisStep
  split_ifs with h
  · exact uncorrelateSetVar1_ne _ _ _ hi hj
  · exact addDiag_ne _ _ _ (by tauto)

lemma biasAxisStep_diag_self (inhibit : ℕ → Bool) (prev : ℕ → ℚ) (b : IdxDof) (pnoise : ℚ)
    (P : Mat) (k : ℕ) :
    biasAxisStep inhibit prev b pnoise P k (b.idx + k) (b.idx + k) =
      if inhibit k = true then prev k else P (b.idx + k) (b.idx + k) + pnoise := by
  unfold biasAxisStep
  split_ifs with h
  · exact uncorrelateSetVar1_diag _ _ _
  · exact addDiag_diag _ _ _

lemma biasAxisStep_zero (inhibit : ℕ → Bool) (prev : ℕ → ℚ) (b : IdxDof) (pnoise : ℚ)
    (P : Mat) (k : ℕ) {i j : ℕ} (hij : i ≠ j) (h : P i j = 0) :
    biasAxisStep inhibit prev b pnoise P k i j = 0 := by
  unfold biasAxisStep
  split_ifs with h1
  · unfold uncorrelateSetVar1
    split_ifs with h2 h3 h4
    · exact absurd (h2.trans h3.symm) hij
    · rfl
    · rfl
    · exact h
  · rw [addDiag_ne _ _ _ (by rintro ⟨rfl, rfl⟩; exact hij rfl)]
    exact h

lemma foldl_biasAxisStep_ne (inhibit : ℕ → Bool) (prev : ℕ → ℚ) (b : IdxDof) (pnoise : ℚ) :
    ∀ (L : List ℕ) (P : Mat) {i j : ℕ},
      (∀ k ∈ L, i ≠ b.idx + k ∧ j ≠ b.idx + k) →
      (L.foldl (biasAxisStep inhibit prev b pnoise) P) i j = P i j := by
  intro L
  induction L with
  | nil => intro P i j _; rfl
  | cons x xs ih =>
    intro P i j h
    simp only [List.foldl_cons]
    rw [ih _ fun k hk => h k (List.mem_cons_of_mem x hk),
      biasAxisStep_ne _ _ _ _ _ _ (h x (List.mem_cons_self x xs)).1
        (h x (List.mem_cons_self x xs)).2]

lemma foldl_biasAxisStep_zero (inhibit : ℕ → Bool) (prev : ℕ → ℚ) (b : IdxDof) (pnoise : ℚ) :
    ∀ (L : List ℕ) (P : Mat) {i j : ℕ}, i ≠ j → P i j = 0 →
      (L.foldl (biasAxisStep inhibit prev b pnoise) P) i j = 0 := by
  intro L
  induction L with
  | nil => intro P i j _ h; exact h
  | cons x xs ih =>
    intro P i j hij h
    simp only [List.foldl_cons]
    exact ih _ hij (biasAxisStep_zero _ _ _ _ _ _ hij h)

/-- The gyro-bias diagonal after the bias process-noise loops. -/
lemma injectBias_gyro_diag (e : Env) (P : Mat) (a : ℕ) (ha : a < 3) :
    injectBiasNoise e P (State.gyro_bias.idx + a) (State.gyro_bias.idx + a) =
      if e.gyro_bias_inhibit a = true then e.prev_gyro_bias_var a
      else P (State.gyro_bias.idx + a) (State.gyro_bias.idx + a) +
        sq (e.dt * constrain e.p.gyro_bias_p_noise 0 1) := by
  have h01 : State.gyro_bias.idx + 0 ≠ State.gyro_bias.idx + 1 := by
    rw [gyro_idx_eq]; omega
  have h02 : State.gyro_bias.idx + 0 ≠ State.gyro_bias.idx + 2 := by
    rw [gyro_idx_eq]; omega
  have h10 : State.gyro_bias.idx + 1 ≠ State.gyro_bias.idx + 0 := by
    rw [gyro_idx_eq]; omega
  have h12 : State.gyro_bias.idx + 1 ≠ State.gyro_bias.idx + 2 := by
    rw [gyro_idx_eq]; omega
  have h20 : State.gyro_bias.idx + 2 ≠ State.gyro_bias.idx + 0 := by
    rw [gyro_idx_eq]; omega
  have h21 : State.gyro_bias.idx + 2 ≠ State.gyro_bias.idx + 1 := by
    rw [gyro_idx_eq]; omega
  unfold injectBiasNoise
  rw [range_gyro_dof, range_accel_dof]
  rw [foldl_biasAxisStep_ne _ _ _ _ [0, 1, 2] _ (by
    intro k hk
    fin_cases hk <;> rw [gyro_idx_eq, accel_idx_eq] <;> omega)]
  interval_cases a
  · simp only [List.foldl_cons, List.foldl_nil]
    rw [biasAxisStep_ne _ _ _ _ _ _ h02 h02, biasAxisStep_ne _ _ _ _ _ _ h01 h01,
      biasAxisStep_diag_self]
  · simp only [List.foldl_cons, List.foldl_nil]
    rw [biasAxisStep_ne _ _ _ _ _ _ h12 h12, biasAxisStep_diag_self,
      biasAxisStep_ne _ _ _ _ _ _ h10 h10]
  · simp only [List.foldl_cons, List.foldl_nil]
    rw [biasAxisStep_diag_self, biasAxisStep_ne _ _ _ _ _ _ h21 h21,
      biasAxisStep_ne _ _ _ _ _ _ h20 h20]

/-- The accel-bias diagonal after the bias process-noise loops. -/
lemma injectBias_accel_diag (e : Env) (P : Mat) (a : ℕ) (ha : a < 3) :
    injectBiasNoise e P (State.accel_bias.idx + a) (State.accel_bias.idx + a) =
      if e.accel_bias_inhibit a = true then e.prev_accel_bias_var a
      else P (State.accel_bias.idx + a) (State.accel_bias.idx + a) +
        sq (e.dt * constrain e.p.accel_bias_p_noise 0 1) := by
  have h01 : State.accel_bias.idx + 0 ≠ State.accel_bias.idx + 1 := by
    rw [accel_idx_eq]; omega
  have h02 : State.accel_bias.idx + 0 ≠ State.accel_bias.idx + 2 := by
    rw [accel_idx_eq]; omega
  have h10 : State.accel_bias.idx + 1 ≠ State.accel_bias.idx + 0 := by
    rw [accel_idx_eq]; omega
  have h12 : State.accel_bias.idx + 1 ≠ State.accel_bias.idx + 2 := by
    rw [accel_idx_eq]; omega
  have h20 : State.accel_bias.idx + 2 ≠ State.accel_bias.idx + 0 := by
    rw [accel_idx_eq]; omega
  have h21 : State.accel_bias.idx + 2 ≠ State.accel_bias.idx + 1 := by
    rw [accel_idx_eq]; omega
  unfold injectBiasNoise
  rw [range_gyro_dof, range_accel_dof]
  have hg : ((([0, 1, 2] : List ℕ)).foldl
      (biasAxisStep e.gyro_bias_inhibit e.prev_gyro_bias_var State.gyro_bias
        (sq (e.dt * constrain e.p.gyro_bias_p_noise 0 1))) P)
      (State.accel_bias.idx + a) (State.accel_bias.idx + a) =
      P (State.accel_bias.idx + a) (State.accel_bias.idx + a) := by
    rw [foldl_biasAxisStep_ne _ _ _ _ [0, 1, 2] _ (by
      intro k hk
      fin_cases hk <;> rw [gyro_idx_eq, accel_idx_eq] <;> omega)]
  interval_cases a
  · simp only [List.foldl_cons, List.foldl_nil]
    rw [biasAxisStep_ne _ _ _ _ _ _ h02 h02, biasAxisStep_ne _ _ _ _ _ _ h01 h01,
      biasAxisStep_diag_self]
    simp only [List.foldl_cons, List.foldl_nil] at hg
    rw [hg]
  · simp only [List.foldl_cons, List.foldl_nil]
    rw [biasAxisStep_ne _ _ _ _ _ _ h12 h12, biasAxisStep_diag_self,
      biasAxisStep_ne _ _ _ _ _ _ h10 h10]
    simp only [List.foldl_cons, List.foldl_nil] at hg
    rw [hg]
  · simp only [List.foldl_cons, List.foldl_nil]
    rw [biasAxisStep_diag_self, biasAxisStep_ne _ _ _ _ _ _ h21 h21,
      biasAxisStep_ne _ _ _ _ _ _ h20 h20]
    simp only [List.foldl_cons, List.foldl_nil] at hg
    rw [hg]

/-- An inhibited gyro-bias axis's row and column are zeroed by the bias
process-noise loops. -/
lemma injectBias_gyro_inhibited_zero (e : Env) (P : Mat) (a : ℕ) (ha : a < 3)
    (hin : e.gyro_bias_inhibit a = true) :
    ∀ j, j ≠ State.gyro_bias.idx + a →
      injectBiasNoise e P (State.gyro_bias.idx + a) j = 0 ∧
      injectBiasNoise e P j (State.gyro_bias.idx + a) = 0 := by
  intro j hj
  unfold injectBiasNoise
  rw [range_gyro_dof, range_accel_dof]
  have hrow : ∀ (Q : Mat),
      biasAxisStep e.gyro_bias_inhibit e.prev_gyro_bias_var State.gyro_bias
        (sq (e.dt * constrain e.p.gyro_bias_p_noise 0 1)) Q a
        (State.gyro_bias.idx + a) j = 0 := by
    intro Q
    unfold biasAxisStep
    rw [if_pos hin]
    exact uncorrelateSetVar1_zero _ _ _ (Or.inl rfl) (by omega)
  have hcol : ∀ (Q : Mat),
      biasAxisStep e.gyro_bias_inhibit e.prev_gyro_bias_var State.gyro_bias
        (sq (e.dt * constrain e.p.gyro_bias_p_noise 0 1)) Q a
        j (State.gyro_bias.idx + a) = 0 := by
    intro Q
    unfold biasAxisStep
    rw [if_pos hin]
    exact uncorrelateSetVar1_zero _ _ _ (Or.inr rfl) (by omega)
  constructor
  · refine foldl_biasAxisStep_zero _ _ _ _ _ _ (by omega) ?_
    interval_cases a <;>
      simp only [List.foldl_cons, List.foldl_nil]
    · refine foldl_biasAxisStep_zero _ _ _ _ [1, 2] _ (by omega) (hrow P)
    · refine foldl_biasAxisStep_zero _ _ _ _ [2] _ (by omega) (hrow _)
    · exact hrow _
  · refine foldl_biasAxisStep_zero _ _ _ _ _ _ (by omega) ?_
    interval_cases a <;>
      simp only [List.foldl_cons, List.foldl_nil]
    · refine foldl_biasAxisStep_zero _ _ _ _ [1, 2] _ (by omega) (hcol P)
    · refine foldl_biasAxisStep_zero _ _ _ _ [2] _ (by omega) (hcol _)
    · exact hcol _

/-- An inhibited accel-bias axis's row and column are zeroed by the bias
process-noise loops. -/
lemma injectBias_accel_inhibited_zero (e : Env) (P : Mat) (a : ℕ) (ha : a < 3)
    (hin : e.accel_bias_inhibit a = true) :
    ∀ j, j ≠ State.accel_bias.idx + a →
      injectBiasNoise e P (State.accel_bias.idx + a) j = 0 ∧
      injectBiasNoise e P j (State.accel_bias.idx + a) = 0 := by
  intro j hj
  unfold injectBiasNoise
  rw [range_gyro_dof, range_accel_dof]
  have hrow : ∀ (Q : Mat),
      biasAxisStep e.accel_bias_inhibit e.prev_accel_bias_var State.accel_bias
        (sq (e.dt * constrain e.p.accel_bias_p_noise 0 1)) Q a
        (State.accel_bias.idx + a) j = 0 := by
    intro Q
    unfold biasAxisStep
    rw [if_pos hin]
    exact uncorrelateSetVar1_zero _ _ _ (Or.inl rfl) (by omega)
  have hcol : ∀ (Q : Mat),
      biasAxisStep e.accel_bias_inhibit e.prev_accel_bias_var State.accel_bias
        (sq (e.dt * constrain e.p.accel_bias_p_noise 0 1)) Q a
        j (State.accel_bias.idx + a) = 0 := by
    intro Q
    unfold biasAxisStep
    rw [if_pos hin]
    exact uncorrelateSetVar1_zero _ _ _ (Or.inr rfl) (by omega)
  constructor
  · interval_cases a <;>
      simp only [List.foldl_cons, List.foldl_nil]
    · refine foldl_biasAxisStep_zero _ _ _ _ [1, 2] _ (by omega) (hrow _)
    · refine foldl_biasAxisStep_zero _ _ _ _ [2] _ (by omega) (hrow _)
    · exact hrow _
  · interval_cases a <;>
      simp only [List.foldl_cons, List.foldl_nil]
    · refine foldl_biasAxisStep_zero _ _ _ _ [1, 2] _ (by omega) (hcol _)
    · refine foldl_biasAxisStep_zero _ _ _ _ [2] _ (by omega) (hcol _)
    · exact hcol _

/-- The symmetrisation pass never changes a diagonal entry. -/
lemma symmetrizeUpperToLower_diag (P : Mat) (i : ℕ) :
    symmetrizeUpperToLower P i i = P i i := by
  unfold symmetrizeUpperToLower
  rw [if_neg (by simp)]

/-- Entries outside the optional blocks are untouched by the
magnetic-field and wind noise injection. -/
lemma magWindNoiseStep_notMem (e : Env) (P : Mat) {i : ℕ} (j : ℕ)
    (hI : ¬inB State.mag_I i) (hB : ¬inB State.mag_B i) (hW : ¬inB State.wind_vel i) :
    magWindNoiseStep e P i j = P i j := by
  have eI : ∀ (q : ℚ) (Q : Mat), addDiagBlock State.mag_I q Q i j = Q i j :=
    fun q Q => addDiagBlock_notMem _ _ _ _ hI
  have eB : ∀ (q : ℚ) (Q : Mat), addDiagBlock State.mag_B q Q i j = Q i j :=
    fun q Q => addDiagBlock_notMem _ _ _ _ hB
  have eW : ∀ (q : ℚ) (Q : Mat), addDiagBlock State.wind_vel q Q i j = Q i j :=
    fun q Q => addDiagBlock_notMem _ _ _ _ hW
  unfold magWindNoiseStep
  simp only [apply_ite (fun M : Mat => M i j), eI, eB, eW, ite_self]

/-- Diagonal of an inhibited gyro-bias axis after one full
`predictCovariance` call: the restored held variance, clamped into the
gyro-bias range by the final health enforcement. -/
lemma predict_gyro_inhibited_diag (e : Env) (imu : ImuSample)
    (trans : Mat → ℚ → (ℕ → ℚ) → Mat) (P : Mat) (a : ℕ) (ha : a < 3)
    (hin : e.gyro_bias_inhibit a = true) :
    predictCovariance e imu trans P (State.gyro_bias.idx + a) (State.gyro_bias.idx + a) =
      constrain (e.prev_gyro_bias_var a) 0 1 := by
  unfold predictCovariance
  rw [fix_diag_gyro _ _ _ (by rw [gyro_idx_eq, inB_gyro]; omega),
    symmetrizeUpperToLower_diag,
    magWindNoiseStep_notMem _ _ _ (by rw [gyro_idx_eq, inB_magI]; omega)
      (by rw [gyro_idx_eq, inB_magB]; omega) (by rw [gyro_idx_eq, inB_wind]; omega),
    injectBias_gyro_diag _ _ a ha, if_pos hin]

/-- Diagonal of an inhibited accel-bias axis after one full
`predictCovariance` call, with all three accel axes inhibited: exactly
the restored held variance. -/
lemma predict_accel_allInhibited_diag (e : Env) (imu : ImuSample)
    (trans : Mat → ℚ → (ℕ → ℚ) → Mat) (P : Mat) (a : ℕ) (ha : a < 3)
    (h0 : e.accel_bias_inhibit 0 = true) (h1 : e.accel_bias_inhibit 1 = true)
    (h2 : e.accel_bias_inhibit 2 = true) :
    predictCovariance e imu trans P (State.accel_bias.idx + a) (State.accel_bias.idx + a) =
      e.prev_accel_bias_var a := by
  unfold predictCovariance
  rw [fix_allAccelInhibited_diag e _ false h0 h1 h2 a ha,
    symmetrizeUpperToLower_diag,
    magWindNoiseStep_notMem _ _ _ (by rw [accel_idx_eq, inB_magI]; omega)
      (by rw [accel_idx_eq, inB_magB]; omega) (by rw [accel_idx_eq, inB_wind]; omega),
    injectBias_accel_diag _ _ a ha,
    if_pos (by
      interval_cases a
      · exact h0
      · exact h1
      · exact h2)]

/-- Across any number of consecutive predictions an inhibited gyro-bias
axis's diagonal stays pinned at the held value (held value within the
clamp range). -/
lemma predictIter_gyro_inhibited (e : Env) (imu : ImuSample)
    (trans : Mat → ℚ → (ℕ → ℚ) → Mat) (a : ℕ) (ha : a < 3)
    (hin : e.gyro_bias_inhibit a = true)
    (hlo : 0 ≤ e.prev_gyro_bias_var a) (hhi : e.prev_gyro_bias_var a ≤ 1) :
    ∀ n (P : Mat), 1 ≤ n →
      predictIter e imu trans n P (State.gyro_bias.idx + a) (State.gyro_bias.idx + a) =
        e.prev_gyro_bias_var a := by
  intro n
  induction n with
  | zero => intro P h; omega
  | succ m ih =>
    intro P _
    show predictIter e imu trans m (predictCovariance e imu trans P) _ _ = _
    rcases Nat.eq_zero_or_pos m with rfl | hm
    · show predictCovariance e imu trans P _ _ = _
      rw [predict_gyro_inhibited_diag e imu trans P a ha hin]
      exact constrain_eq_self hlo hhi
    · exact ih _ hm

/-- Across any number of consecutive predictions with all accel-bias
axes inhibited, each axis's diagonal stays pinned at the held value. -/
lemma predictIter_accel_allInhibited (e : Env) (imu : ImuSample)
    (trans : Mat → ℚ → (ℕ → ℚ) → Mat) (a : ℕ) (ha : a < 3)
    (h0 : e.accel_bias_inhibit 0 = true) (h1 : e.accel_bias_inhibit 1 = true)
    (h2 : e.accel_bias_inhibit 2 = true) :
    ∀ n (P : Mat), 1 ≤ n →
      predictIter e imu trans n P (State.accel_bias.idx + a) (State.accel_bias.idx + a) =
        e.prev_accel_bias_var a := by
  intro n
  induction n with
  | zero => intro P h; omega
  | succ m ih =>
    intro P _
    show predictIter e imu trans m (predictCovariance e imu trans P) _ _ = _
    rcases Nat.eq_zero_or_pos m with rfl | hm
    · exact predict_accel_allInhibited_diag e imu trans P a ha h0 h1 h2
    · exact ih _ hm

/-! ### Claim C5 -/

/-- Counterexample to C5 as stated: with gyro-bias axis 0 inhibited and
a held previous variance of 2, one `predictCovariance` call leaves the
diagonal at `constrain(2, 0, 1) = 1`, not at the held value — the final
health-enforcement clamp overwrites the restored value, so the
across-N-calls equality fails for held values outside the clamp range. -/
theorem C5_counterexample :
    predictCovariance exEnvPrev2 exImuClean exTransId exSmallP
        (State.gyro_bias.idx + 0) (State.gyro_bias.idx + 0) ≠
      exEnvPrev2.prev_gyro_bias_var 0 := by
  rw [predict_gyro_inhibited_diag exEnvPrev2 exImuClean exTransId exSmallP 0 (by omega) rfl]
  norm_num [constrain, exEnvPrev2, exEnv]

/-- C5 (amended): in the bias process-noise step of `predictCovariance`,
a non-inhibited gyro- or accel-bias axis receives exactly
`(dt·clamp(noise_density,0,1))²` on its diagonal; an inhibited axis is
fully decorrelated (row and column zeroed) with its diagonal set to the
held previous variance; and across N ≥ 1 consecutive calls an inhibited
axis's diagonal equals the held value, provided that value lies within
the gyro-bias clamp range for gyro axes, and all three axes are
inhibited for accel axes (so no clamp or block reset can overwrite the
restored value). -/
theorem C5_predict_bias_inhibit (e : Env) (imu : ImuSample)
    (trans : Mat → ℚ → (ℕ → ℚ) → Mat) (P : Mat) :
    (∀ a, a < 3 → e.gyro_bias_inhibit a = false →
      injectBiasNoise e P (State.gyro_bias.idx + a) (State.gyro_bias.idx + a) =
        P (State.gyro_bias.idx + a) (State.gyro_bias.idx + a) +
          sq (e.dt * constrain e.p.gyro_bias_p_noise 0 1)) ∧
    (∀ a, a < 3 → e.accel_bias_inhibit a = false →
      injectBiasNoise e P (State.accel_bias.idx + a) (State.accel_bias.idx + a) =
        P (State.accel_bias.idx + a) (State.accel_bias.idx + a) +
          sq (e.dt * constrain e.p.accel_bias_p_noise 0 1)) ∧
    (∀ a, a < 3 → e.gyro_bias_inhibit a = true →
      injectBiasNoise e P (State.gyro_bias.idx + a) (State.gyro_bias.idx + a) =
        e.prev_gyro_bias_var a ∧
      ∀ j, j ≠ State.gyro_bias.idx + a →
        injectBiasNoise e P (State.gyro_bias.idx + a) j = 0 ∧
        injectBiasNoise e P j (State.gyro_bias.idx + a) = 0) ∧
    (∀ a, a < 3 → e.accel_bias_inhibit a = true →
      injectBiasNoise e P (State.accel_bias.idx + a) (State.accel_bias.idx + a) =
        e.prev_accel_bias_var a ∧
      ∀ j, j ≠ State.accel_bias.idx + a →
        injectBiasNoise e P (State.accel_bias.idx + a) j = 0 ∧
        injectBiasNoise e P j (State.accel_bias.idx + a) = 0) ∧
    (∀ a, a < 3 → e.gyro_bias_inhibit a = true →
      0 ≤ e.prev_gyro_bias_var a → e.prev_gyro_bias_var a ≤ 1 →
      ∀ n, 1 ≤ n →
        predictIter e imu trans n P (State.gyro_bias.idx + a) (State.gyro_bias.idx + a) =
          e.prev_gyro_bias_var a) ∧
    (∀ a, a < 3 → e.accel_bias_inhibit 0 = true → e.accel_bias_inhibit 1 = true →
      e.accel_bias_inhibit 2 = true →
      ∀ n, 1 ≤ n →
        predictIter e imu trans n P (State.accel_bias.idx + a) (State.accel_bias.idx + a) =
          e.prev_accel_bias_var a) := by
  refine ⟨?_, ?_, ?_, ?_, ?_, ?_⟩
  · intro a ha hni
    rw [injectBias_gyro_diag e P a ha, if_neg (by simp [hni])]
  · intro a ha hni
    rw [injectBias_accel_diag e P a ha, if_neg (by simp [hni])]
  · intro a ha hin
    exact ⟨by rw [injectBias_gyro_diag e P a ha, if_pos hin],
      injectBias_gyro_inhibited_zero e P a ha hin⟩
  · intro a ha hin
    exact ⟨by rw [injectBias_accel_diag e P a ha, if_pos hin],
      injectBias_accel_inhibited_zero e P a ha hin⟩
  · intro a ha hin hlo hhi n hn
    exact predictIter_gyro_inhibited e imu trans a ha hin hlo hhi n P hn
  · intro a ha h0 h1 h2 n hn
    exact predictIter_accel_allInhibited e imu trans a ha h0 h1 h2 n P hn

/-- Witness for C5 at concrete inputs: a non-inhibited gyro axis
receives exactly its process-noise increment, and with gyro axis 0
inhibited at a held value of 1/1000 two consecutive predictions leave
its diagonal at 1/1000. -/
theorem C5_witness :
    injectBiasNoise exEnvAllInhib exSmallP (State.gyro_bias.idx + 1)
        (State.gyro_bias.idx + 1) =
      exSmallP (State.gyro_bias.idx + 1) (State.gyro_bias.idx + 1) +
        sq (exEnvAllInhib.dt * constrain exEnvAllInhib.p.gyro_bias_p_noise 0 1) ∧
    predictIter exEnvAllInhib exImuClean exTransId 2 exSmallP
        (State.gyro_bias.idx + 0) (State.gyro_bias.idx + 0) =
      exEnvAllInhib.prev_gyro_bias_var 0 ∧
    predictIter exEnvAllInhib exImuClean exTransId 2 exSmallP
        (State.accel_bias.idx + 2) (State.accel_bias.idx + 2) =
      exEnvAllInhib.prev_accel_bias_var 2 := by
  refine ⟨?_, ?_, ?_⟩
  · exact (C5_predict_bias_inhibit exEnvAllInhib exImuClean exTransId exSmallP).1 1
      (by omega) rfl
  · refine (C5_predict_bias_inhibit exEnvAllInhib exImuClean exTransId exSmallP).2.2.2.2.1 0
      (by omega) rfl ?_ ?_ 2 (by omega)
    · norm_num [exEnvAllInhib, exEnv]
    · norm_num [exEnvAllInhib, exEnv]
  · exact (C5_predict_bias_inhibit exEnvAllInhib exImuClean exTransId exSmallP).2.2.2.2.2 2
      (by omega) rfl rfl rfl 2 (by omega)

/-! ### Claim C3 -/

/-- Counterexample to C3 as stated: with all three accel-bias axes
inhibited, an accel-bias diagonal entry of 2 survives
`fixCovarianceErrors` unchanged, exceeding the claimed bound
`(0.1·g)² ≈ 0.9617`. -/
theorem C3_counterexample :
    ¬(fixCovarianceErrors false exEnvAllInhib exGenP 12 12 ≤ accelBiasVarMax) := by
  have h := fix_allAccelInhibited_diag exEnvAllInhib exGenP false rfl rfl rfl 0 (by omega)
  rw [accel_idx_eq] at h
  norm_num at h
  rw [h]
  norm_num [exGenP, accelBiasVarMax, sq, CONSTANTS_ONE_G]

/-- C3 (amended): after `fixCovarianceErrors`, the attitude-tilt
diagonals lie in `[0, 1]`, velocity and position in `[1e-6, 1e6]`, gyro
bias in `[0, 1]`, both magnetic-field blocks in `[0, 1]` when
magnetometer fusion is active, wind velocity in `[0, 1e6]` when wind
estimation is active; and an accel-bias diagonal is bounded by
`(0.1·g)²` only for a non-inhibited axis, when no block reset fires and
the computed lower clamp bound does not exceed `(0.1·g)²` (inhibited
axes are left unchanged and may exceed the bound). -/
theorem C3_fix_diagonal_ranges (fs : Bool) (e : Env) (P : Mat) :
    (∀ i, inB State.quat_nominal i →
      0 ≤ fixCovarianceErrors fs e P i i ∧ fixCovarianceErrors fs e P i i ≤ 1) ∧
    (∀ i, inB State.vel i →
      1/1000000 ≤ fixCovarianceErrors fs e P i i ∧
        fixCovarianceErrors fs e P i i ≤ 1000000) ∧
    (∀ i, inB State.pos i →
      1/1000000 ≤ fixCovarianceErrors fs e P i i ∧
        fixCovarianceErrors fs e P i i ≤ 1000000) ∧
    (∀ i, inB State.gyro_bias i →
      0 ≤ fixCovarianceErrors fs e P i i ∧ fixCovarianceErrors fs e P i i ≤ 1) ∧
    (e.flags.mag = true → ∀ i, (inB State.mag_I i ∨ inB State.mag_B i) →
      0 ≤ fixCovarianceErrors fs e P i i ∧ fixCovarianceErrors fs e P i i ≤ 1) ∧
    (e.flags.wind = true → ∀ i, inB State.wind_vel i →
      0 ≤ fixCovarianceErrors fs e P i i ∧ fixCovarianceErrors fs e P i i ≤ 1000000) ∧
    (∀ a, a < 3 →
      (e.accel_bias_inhibit 0 = false ∨ e.accel_bias_inhibit 1 = false ∨
        e.accel_bias_inhibit 2 = false) →
      e.accel_bias_inhibit a = false → (accelScan e P).2 = false →
      max ((1/100) * (accelScan e P).1) (minStateVarTarget e) ≤ accelBiasVarMax →
      fixCovarianceErrors fs e P (State.accel_bias.idx + a) (State.accel_bias.idx + a) ≤
        accelBiasVarMax) := by
  refine ⟨?_, ?_, ?_, ?_, ?_, ?_, ?_⟩
  · intro i hi
    rw [fix_diag_quat fs e P hi]
    exact ⟨lo_le_constrain (by norm_num), constrain_le_hi (by norm_num)⟩
  · intro i hi
    rw [fix_diag_vel fs e P hi]
    exact ⟨lo_le_constrain (by norm_num), constrain_le_hi (by norm_num)⟩
  · intro i hi
    rw [fix_diag_pos fs e P hi]
    exact ⟨lo_le_constrain (by norm_num), constrain_le_hi (by norm_num)⟩
  · intro i hi
    rw [fix_diag_gyro fs e P hi]
    exact ⟨lo_le_constrain (by norm_num), constrain_le_hi (by norm_num)⟩
  · intro hmag i hi
    rcases hi with hi | hi
    · rw [fix_diag_magI fs e P hi hmag]
      exact ⟨lo_le_constrain (by norm_num), constrain_le_hi (by norm_num)⟩
    · rw [fix_diag_magB fs e P hi hmag]
      exact ⟨lo_le_constrain (by norm_num), constrain_le_hi (by norm_num)⟩
  · intro hwind i hi
    rw [fix_diag_wind fs e P hi hwind]
    exact ⟨lo_le_constrain (by norm_num), constrain_le_hi (by norm_num)⟩
  · intro a ha hguard hax hreset hle
    rw [fix_diag_accel fs e P a ha hguard hax, if_neg (by simp [hreset])]
    exact constrain_le_hi hle

/-- Witness for C3 at a concrete input: an attitude diagonal lands in
`[0, 1]`, an active earth-field diagonal lands in `[0, 1]`, and a
non-inhibited accel-bias diagonal respects the `(0.1·g)²` bound. -/
theorem C3_witness :
    (0 ≤ fixCovarianceErrors false exEnv exGenP 0 0 ∧
      fixCovarianceErrors false exEnv exGenP 0 0 ≤ 1) ∧
    (0 ≤ fixCovarianceErrors false exEnv exGenP 15 15 ∧
      fixCovarianceErrors false exEnv exGenP 15 15 ≤ 1) ∧
    fixCovarianceErrors false exEnv exGenP (State.accel_bias.idx + 0)
      (State.accel_bias.idx + 0) ≤ accelBiasVarMax := by
  refine ⟨?_, ?_, ?_⟩
  · exact (C3_fix_diagonal_ranges false exEnv exGenP).1 0 (by rw [inB_quat]; omega)
  · exact (C3_fix_diagonal_ranges false exEnv exGenP).2.2.2.2.1 rfl 15
      (Or.inl (by rw [inB_magI]; omega))
  · refine (C3_fix_diagonal_ranges false exEnv exGenP).2.2.2.2.2.2 0 (by omega)
      (Or.inl rfl) rfl ?_ ?_
    · norm_num [accelScan, accelScanStep, range_accel_dof, List.foldl_cons, List.foldl_nil,
        minSafeStateVar, exEnv, exParams, exGenP, sq, accel_idx_eq]
    · norm_num [accelScan, accelScanStep, range_accel_dof, List.foldl_cons, List.foldl_nil,
        minSafeStateVar, minStateVarTarget, accelBiasVarMax, CONSTANTS_ONE_G,
        exEnv, exParams, exGenP, sq, accel_idx_eq]

/-! ### Claim C6 -/

/-- Counterexample to C6 as stated: with accel-bias variances
`(1e6, 1, 1)` and `dt = 0.01`, the computed lower clamp bound `1e4`
exceeds the upper bound `(0.1·g)²`, and after `fixCovarianceErrors` the
non-inhibited variances are `(0.1·g)²` and `1e4`, whose ratio far
exceeds 100. -/
theorem C6_counterexample :
    ¬(fixCovarianceErrors false exEnv exRatioP 13 13 ≤
        100 * fixCovarianceErrors false exEnv exRatioP 12 12) := by
  have hscan : accelScan exEnv exRatioP = (1000000, false) := by
    norm_num [accelScan, accelScanStep, range_accel_dof, List.foldl_cons, List.foldl_nil,
      minSafeStateVar, exEnv, exParams, exRatioP, sq, accel_idx_eq]
  have h12 := fix_diag_accel false exEnv exRatioP 0 (by omega) (Or.inl rfl) rfl
  have h13 := fix_diag_accel false exEnv exRatioP 1 (by omega) (Or.inl rfl) rfl
  rw [accel_idx_eq] at h12 h13
  norm_num [hscan] at h12 h13
  rw [h12, h13]
  norm_num [constrain, minStateVarTarget, accelBiasVarMax, CONSTANTS_ONE_G,
    exEnv, exParams, exRatioP, sq]

/-- C6 (amended): in the accel-bias section with at least one axis
active, each non-inhibited diagonal is assigned
`constrain(P, max(0.01·maxVar, 5e-8/dt²), (0.1·g)²)` where `maxVar` is
the (minimum-safe-floored) maximum non-inhibited diagonal before
clamping; the block reset fires exactly when some non-inhibited
diagonal was below `1e-9/dt²`, in which case after the clamp pass the
whole block is reset to the startup variance; and the ratio of any two
non-inhibited post-clamp diagonals is at most 100 provided the lower
clamp bound does not exceed `(0.1·g)²` (otherwise the clamp interval is
empty and the ratio bound can fail). -/
theorem C6_fix_accel_clamp_and_reset (e : Env) (P : Mat)
    (hguard : e.accel_bias_inhibit 0 = false ∨ e.accel_bias_inhibit 1 = false ∨
      e.accel_bias_inhibit 2 = false) :
    (∀ fs a, a < 3 → e.accel_bias_inhibit a = false → (accelScan e P).2 = false →
      fixCovarianceErrors fs e P (State.accel_bias.idx + a) (State.accel_bias.idx + a) =
        constrain (P (State.accel_bias.idx + a) (State.accel_bias.idx + a))
          (max ((1/100) * (accelScan e P).1) (minStateVarTarget e)) accelBiasVarMax) ∧
    (minSafeStateVar e ≤ (accelScan e P).1 ∧
      (∀ k, k < 3 → e.accel_bias_inhibit k = false →
        P (State.accel_bias.idx + k) (State.accel_bias.idx + k) ≤ (accelScan e P).1) ∧
      ((accelScan e P).1 = minSafeStateVar e ∨
        ∃ k, k < 3 ∧ e.accel_bias_inhibit k = false ∧
          (accelScan e P).1 =
            P (State.accel_bias.idx + k) (State.accel_bias.idx + k))) ∧
    ((accelScan e P).2 = true ↔
      ∃ k, k < 3 ∧ e.accel_bias_inhibit k = false ∧
        P (State.accel_bias.idx + k) (State.accel_bias.idx + k) < minSafeStateVar e) ∧
    ((accelScan e P).2 = true → ∀ fs a, a < 3 →
      fixCovarianceErrors fs e P (State.accel_bias.idx + a) (State.accel_bias.idx + a) =
        sq e.p.switch_on_accel_bias) ∧
    ((accelScan e P).2 = false →
      max ((1/100) * (accelScan e P).1) (minStateVarTarget e) ≤ accelBiasVarMax →
      ∀ fs a b, a < 3 → b < 3 → e.accel_bias_inhibit a = false →
        e.accel_bias_inhibit b = false →
        fixCovarianceErrors fs e P (State.accel_bias.idx + a) (State.accel_bias.idx + a) ≤
          100 * fixCovarianceErrors fs e P (State.accel_bias.idx + b)
            (State.accel_bias.idx + b)) := by
  refine ⟨?_, ⟨accelScan_fst_ge e P, fun k hk hni => accelScan_le_fst e P k hk hni,
    accelScan_fst_cases e P⟩, accelScan_snd_iff e P, ?_, ?_⟩
  · intro fs a ha hax hreset
    rw [fix_diag_accel fs e P a ha hguard hax, if_neg (by simp [hreset])]
  · intro hreset fs a ha
    exact fix_diag_accel_reset fs e P a ha hguard hreset
  · intro hreset hle fs a b ha hb hax hbx
    rw [fix_diag_accel fs e P a ha hguard hax, fix_diag_accel fs e P b hb hguard hbx,
      if_neg (by simp [hreset]), if_neg (by simp [hreset])]
    set lo := max ((1/100) * (accelScan e P).1) (minStateVarTarget e) with hlo
    have hlo0 : 0 ≤ lo := by
      refine le_trans ?_ (le_max_right _ _)
      unfold minStateVarTarget sq
      exact div_nonneg (by norm_num) (mul_self_nonneg e.dt)
    have hxa : P (State.accel_bias.idx + a) (State.accel_bias.idx + a) ≤
        (accelScan e P).1 := accelScan_le_fst e P a ha hax
    have hscan100 : (accelScan e P).1 ≤ 100 * lo := by
      have := le_max_left ((1/100) * (accelScan e P).1) (minStateVarTarget e)
      rw [← hlo] at this
      linarith
    have hya : constrain (P (State.accel_bias.idx + a) (State.accel_bias.idx + a))
        lo accelBiasVarMax ≤ 100 * lo :=
      le_trans (constrain_le_max _ _ _) (max_le (by linarith) (by linarith))
    have hyb : lo ≤ constrain (P (State.accel_bias.idx + b) (State.accel_bias.idx + b))
        lo accelBiasVarMax := lo_le_constrain hle
    linarith

/-- Witness for C6 at a concrete input: on a small healthy matrix the
non-inhibited accel-bias diagonal is assigned exactly the clamp
expression and any two axes respect the 100:1 ratio bound. -/
theorem C6_witness :
    fixCovarianceErrors false exEnv exSmallP (State.accel_bias.idx + 0)
        (State.accel_bias.idx + 0) =
      constrain (exSmallP (State.accel_bias.idx + 0) (State.accel_bias.idx + 0))
        (max ((1/100) * (accelScan exEnv exSmallP).1) (minStateVarTarget exEnv))
        accelBiasVarMax ∧
    fixCovarianceErrors false exEnv exSmallP (State.accel_bias.idx + 0)
        (State.accel_bias.idx + 0) ≤
      100 * fixCovarianceErrors false exEnv exSmallP (State.accel_bias.idx + 1)
        (State.accel_bias.idx + 1) := by
  have hscan : (accelScan exEnv exSmallP).2 = false := by
    norm_num [accelScan, accelScanStep, range_accel_dof, List.foldl_cons, List.foldl_nil,
      minSafeStateVar, exEnv, exParams, exSmallP, sq, accel_idx_eq]
  constructor
  · exact (C6_fix_accel_clamp_and_reset exEnv exSmallP (Or.inl rfl)).1 false 0 (by omega)
      rfl hscan
  · refine (C6_fix_accel_clamp_and_reset exEnv exSmallP (Or.inl rfl)).2.2.2.2 hscan ?_
      false 0 1 (by omega) (by omega) rfl rfl
    norm_num [accelScan, accelScanStep, range_accel_dof, List.foldl_cons, List.foldl_nil,
      minSafeStateVar, minStateVarTarget, accelBiasVarMax, CONSTANTS_ONE_G,
      exEnv, exParams, exSmallP, sq, accel_idx_eq]

/-! ### Closed form of the update-validator loop -/

/-- Closed form of the `checkAndFixCovarianceUpdate` scan over the first
`n` state indices, together with the health flag. -/
lemma checkAndFix_fold (P KHP : Mat) :
    ∀ n, (List.range n).foldl (checkAndFixStep KHP) (P, true) =
      (cafRepair P KHP n, decide (∀ i, i < n → ¬(P i i < KHP i i))) := by
  intro n
  induction n with
  | zero =>
    simp only [List.range_zero, List.foldl_nil]
    refine Prod.ext ?_ ?_
    · funext i j
      simp [cafRepair]
    · simp
  | succ n ih =>
    rw [List.range_succ, List.foldl_append, ih]
    simp only [List.foldl_cons, List.foldl_nil]
    have hQ : cafRepair P KHP n n n = P n n := by
      simp [cafRepair]
    by_cases h : P n n < KHP n n
    · rw [checkAndFixStep]
      rw [if_pos (show (cafRepair P KHP n, _).1 n n < KHP n n by
        simpa [hQ] using h)]
      refine Prod.ext ?_ ?_
      · show uncorrelateSetVar1 (cafRepair P KHP n) n 0 = cafRepair P KHP (n + 1)
        funext i j
        simp only [uncorrelateSetVar1, cafRepair]
        by_cases hi : i = n
        · by_cases hj : j = n
          · simp [hi, hj, h, Nat.lt_succ_self]
          · simp [hi, hj, h, Nat.lt_succ_self]
        · by_cases hj : j = n
          · simp [hi, hj, h, Nat.lt_succ_self]
          · have hi' : i < n + 1 ↔ i < n := by omega
            have hj' : j < n + 1 ↔ j < n := by omega
            simp only [if_neg hi, if_neg hj, hi', hj']
      · show false = decide (∀ i, i < n + 1 → ¬(P i i < KHP i i))
        symm
        simp only [decide_eq_false_iff_not]
        intro hall
        exact hall n (Nat.lt_succ_self n) h
    · rw [checkAndFixStep]
      rw [if_neg (show ¬(cafRepair P KHP n, _).1 n n < KHP n n by
        simpa [hQ] using h)]
      refine Prod.ext ?_ ?_
      · show cafRepair P KHP n = cafRepair P KHP (n + 1)
        funext i j
        simp only [cafRepair]
        by_cases hcond : (i < n ∧ P i i < KHP i i) ∨ (j < n ∧ P j j < KHP j j)
        · rw [if_pos hcond, if_pos (by
            rcases hcond with ⟨h1, h2⟩ | ⟨h1, h2⟩
            · exact Or.inl ⟨Nat.lt_succ_of_lt h1, h2⟩
            · exact Or.inr ⟨Nat.lt_succ_of_lt h1, h2⟩)]
        · rw [if_neg hcond, if_neg (by
            rintro (⟨h1, h2⟩ | ⟨h1, h2⟩)
            · rcases Nat.lt_succ_iff_lt_or_eq.mp h1 with h1' | rfl
              · exact hcond (Or.inl ⟨h1', h2⟩)
              · exact h h2
            · rcases Nat.lt_succ_iff_lt_or_eq.mp h1 with h1' | rfl
              · exact hcond (Or.inr ⟨h1', h2⟩)
              · exact h h2)]
      · show decide _ = decide _
        simp only [decide_eq_decide]
        constructor
        · intro hall i hi
          rcases Nat.lt_succ_iff_lt_or_eq.mp hi with hi' | rfl
          · exact hall i hi'
          · exact h
        · intro hall i hi
          exact hall i (Nat.lt_succ_of_lt hi)

/-- Entry-wise description of `checkAndFixCovarianceUpdate`. -/
lemma checkAndFix_entry (P KHP : Mat) (i j : ℕ) :
    (checkAndFixCovarianceUpdate P KHP).1 i j =
      if (i < State.size ∧ P i i < KHP i i) ∨ (j < State.size ∧ P j j < KHP j j) then 0
      else P i j := by
  rw [checkAndFixCovarianceUpdate, checkAndFix_fold]
  rfl

/-- Health-flag description of `checkAndFixCovarianceUpdate`. -/
lemma checkAndFix_healthy (P KHP : Mat) :
    (checkAndFixCovarianceUpdate P KHP).2 =
      decide (∀ i, i < State.size → ¬(P i i < KHP i i)) := by
  rw [checkAndFixCovarianceUpdate, checkAndFix_fold]

/-! ### Claim C1 -/

/-- C1: `checkAndFixCovarianceUpdate(KHP)` fully decorrelates state `i` —
zeroing row `i` and column `i` of `P` including the diagonal entry —
exactly when `P(i,i) < KHP(i,i)` held before the call; every entry whose
row and column indices were both healthy is left unchanged; and the
function returns `true` (healthy) if and only if no index satisfied
`P(i,i) < KHP(i,i)`. -/
theorem C1_checkAndFixCovarianceUpdate_decorrelates (P KHP : Mat) :
    (∀ i, i < State.size → P i i < KHP i i →
      ∀ j, (checkAndFixCovarianceUpdate P KHP).1 i j = 0 ∧
        (checkAndFixCovarianceUpdate P KHP).1 j i = 0) ∧
    (∀ i j, ¬(i < State.size ∧ P i i < KHP i i) → ¬(j < State.size ∧ P j j < KHP j j) →
      (checkAndFixCovarianceUpdate P KHP).1 i j = P i j) ∧
    ((checkAndFixCovarianceUpdate P KHP).2 = true ↔
      ∀ i, i < State.size → ¬(P i i < KHP i i)) := by
  refine ⟨?_, ?_, ?_⟩
  · intro i hi hbad j
    constructor
    · rw [checkAndFix_entry, if_pos (Or.inl ⟨hi, hbad⟩)]
    · rw [checkAndFix_entry, if_pos (Or.inr ⟨hi, hbad⟩)]
  · intro i j hgi hgj
    rw [checkAndFix_entry, if_neg (by
      rintro (hc | hc)
      · exact hgi hc
      · exact hgj hc)]
  · rw [checkAndFix_healthy]
    simp

/-- Witness for C1 at a concrete input: state 5 is repaired (its row is
zeroed), an entry with healthy row and column indices is untouched, and
the health flag comes out false because state 5 was unhealthy. -/
theorem C1_witness :
    (checkAndFixCovarianceUpdate exC1P exC1K).1 5 3 = 0 ∧
    (checkAndFixCovarianceUpdate exC1P exC1K).1 4 4 = exC1P 4 4 ∧
    ((checkAndFixCovarianceUpdate exC1P exC1K).2 = true →
      ∀ i, i < State.size → ¬(exC1P i i < exC1K i i)) :=
  ⟨((C1_checkAndFixCovarianceUpdate_decorrelates exC1P exC1K).1 5 (by decide)
      (by decide) 3).1,
   (C1_checkAndFixCovarianceUpdate_decorrelates exC1P exC1K).2.1 4 4
      (by decide) (by decide),
   fun h => ((C1_checkAndFixCovarianceUpdate_decorrelates exC1P exC1K).2.2).mp h⟩

/-! ### Claim C10 -/

/-- C10: with all three accel-bias axes inhibited, `fixCovarianceErrors`
leaves every accel-bias diagonal entry exactly unchanged (the whole
accel-bias section, including clamping, the ratio scan and the
ratio-violation reset, is skipped). -/
theorem C10_fix_allAccelInhibited_frame (e : Env) (P : Mat) (fs : Bool)
    (h0 : e.accel_bias_inhibit 0 = true) (h1 : e.accel_bias_inhibit 1 = true)
    (h2 : e.accel_bias_inhibit 2 = true) :
    ∀ k, k < 3 →
      fixCovarianceErrors fs e P (State.accel_bias.idx + k) (State.accel_bias.idx + k) =
        P (State.accel_bias.idx + k) (State.accel_bias.idx + k) :=
  fix_allAccelInhibited_diag e P fs h0 h1 h2

/-- Witness for C10 at a concrete input: with all accel-bias axes
inhibited the accel-bias diagonal entry (13,13) survives
`fixCovarianceErrors` unchanged. -/
theorem C10_witness :
    fixCovarianceErrors true exEnvAllInhib exGenP 13 13 = exGenP 13 13 :=
  C10_fix_allAccelInhibited_frame exEnvAllInhib exGenP true rfl rfl rfl 1 (by decide)

/-! ### Claim C4 -/

/-- With magnetometer fusion inactive, the magnetic-field gating stage
zeroes every entry in the rows and columns of both field blocks. -/
lemma fixMagStage_inactive_zero (fs : Bool) (e : Env) (Q : Mat)
    (hmag : e.flags.mag = false) :
    ∀ i j, (inB State.mag_I i ∨ inB State.mag_B i ∨ inB State.mag_I j ∨ inB State.mag_B j) →
      fixMagStage fs e Q i j = 0 := by
  intro i j h
  simp only [fixMagStage]
  rw [if_neg (by simp [hmag])]
  by_cases hij : i = j
  · subst hij
    by_cases hB : inB State.mag_B i
    · rw [uncorrelateSetVar_diag _ _ _ hB]
    · have hI : inB State.mag_I i := by tauto
      rw [uncorrelateSetVar_notMem _ _ _ hB hB, uncorrelateSetVar_diag _ _ _ hI]
  · by_cases hB : inB State.mag_B i ∨ inB State.mag_B j
    · rw [uncorrelateSetVar_zero _ _ _ hB hij]
    · push_neg at hB
      have hI : inB State.mag_I i ∨ inB State.mag_I j := by tauto
      rw [uncorrelateSetVar_notMem _ _ _ hB.1 hB.2, uncorrelateSetVar_zero _ _ _ hI hij]

/-- The wind gating stage keeps zero all entries of rows and columns
belonging to a set of indices that is disjoint from the wind block. -/
lemma fixWindStage_zeroOn (fs : Bool) (e : Env) (Q : Mat) (s : ℕ → Prop)
    (hdisj : ∀ i, s i → ¬inB State.wind_vel i)
    (hz : ∀ i j, s i ∨ s j → Q i j = 0) :
    ∀ i j, s i ∨ s j → fixWindStage fs e Q i j = 0 := by
  have hC : ∀ a b, s a ∨ s b → constrainStateVar State.wind_vel 0 1000000 Q a b = 0 := by
    intro a b hab
    by_cases hd : a = b
    · subst hd
      have hsa : s a := by tauto
      rw [constrainStateVar_notMem _ _ _ _ _ (hdisj a hsa)]
      exact hz a a (Or.inl hsa)
    · rw [constrainStateVar_offdiag _ _ _ _ hd]
      exact hz a b hab
  intro i j hs
  simp only [fixWindStage]
  split_ifs with h1 h2
  · unfold makeRowColSymmetric
    split_ifs with ht hle
    · exact hC i j hs
    · exact hC j i (by tauto)
    · exact hC i j hs
  · exact hC i j hs
  · by_cases hij : i = j
    · subst hij
      have hsi : s i := by tauto
      rw [uncorrelateSetVar_notMem _ _ _ (hdisj i hsi) (hdisj i hsi)]
      exact hz i i (Or.inl hsi)
    · by_cases hw : inB State.wind_vel i ∨ inB State.wind_vel j
      · rw [uncorrelateSetVar_zero _ _ _ hw hij]
      · push_neg at hw
        rw [uncorrelateSetVar_notMem _ _ _ hw.1 hw.2]
        exact hz i j hs

/-- C4: if magnetometer fusion is inactive, after `fixCovarianceErrors`
every entry of `P` in the rows and columns of the earth-field and
body-field blocks (including their diagonals) is exactly 0; likewise,
if wind estimation is inactive, every entry in the wind block's rows
and columns is exactly 0. -/
theorem C4_fix_inactive_blocks_zero (e : Env) (P : Mat) (fs : Bool) :
    (e.flags.mag = false →
      ∀ i j, (inB State.mag_I i ∨ inB State.mag_B i ∨ inB State.mag_I j ∨ inB State.mag_B j) →
        fixCovarianceErrors fs e P i j = 0) ∧
    (e.flags.wind = false →
      ∀ i j, (inB State.wind_vel i ∨ inB State.wind_vel j) →
        fixCovarianceErrors fs e P i j = 0) := by
  constructor
  · intro hmag i j h
    unfold fixCovarianceErrors
    refine fixWindStage_zeroOn fs e _ (fun a => inB State.mag_I a ∨ inB State.mag_B a)
      ?_ ?_ i j (by tauto)
    · intro a ha
      rw [inB_wind]
      rcases ha with ha | ha
      · rw [inB_magI] at ha
        omega
      · rw [inB_magB] at ha
        omega
    · intro a b hab
      exact fixMagStage_inactive_zero fs e _ hmag a b (by tauto)
  · intro hwind i j h
    unfold fixCovarianceErrors fixWindStage
    rw [if_neg (by simp [hwind])]
    by_cases hij : i = j
    · subst hij
      have hi : inB State.wind_vel i := by tauto
      rw [uncorrelateSetVar_diag _ _ _ hi]
    · rw [uncorrelateSetVar_zero _ _ _ h hij]

/-- Witness for C4 at a concrete input: with both optional blocks
inactive, an earth-field diagonal entry, a cross entry between a
body-field row and a velocity column, and a wind diagonal entry all end
up exactly zero. -/
theorem C4_witness :
    fixCovarianceErrors false exEnvInactive exGenP 16 16 = 0 ∧
    fixCovarianceErrors false exEnvInactive exGenP 19 4 = 0 ∧
    fixCovarianceErrors false exEnvInactive exGenP 22 22 = 0 :=
  ⟨(C4_fix_inactive_blocks_zero exEnvInactive exGenP false).1 rfl 16 16
      (Or.inl (by rw [inB_magI]; omega)),
   (C4_fix_inactive_blocks_zero exEnvInactive exGenP false).1 rfl 19 4
      (Or.inr (Or.inl (by rw [inB_magB]; omega))),
   (C4_fix_inactive_blocks_zero exEnvInactive exGenP false).2 rfl 22 22
      (Or.inl (by rw [inB_wind]; omega))⟩

/-! ### Claims C7 and C8 -/

/-- The trace of a block only depends on the block's diagonal entries. -/
lemma traceBlock_congr (P Q : Mat) (c : IdxDof)
    (h : ∀ k, k < c.dof → P (c.idx + k) (c.idx + k) = Q (c.idx + k) (c.idx + k)) :
    traceBlock P c = traceBlock Q c := by
  unfold traceBlock
  exact congrArg List.sum (List.map_congr_left fun k hk => h k (List.mem_range.mp hk))

/-- Adding process noise on the diagonal of one block leaves the trace of
a disjoint block unchanged. -/
lemma traceBlock_addDiagBlock_disjoint (b c : IdxDof) (q : ℚ) (P : Mat)
    (h : ∀ k, inB c k → ¬inB b k) :
    traceBlock (addDiagBlock b q P) c = traceBlock P c := by
  apply traceBlock_congr
  intro k hk
  exact addDiagBlock_notMem _ _ _ _ (h _ ⟨Nat.le_add_right _ _, by omega⟩)

set_option maxHeartbeats 2000000 in
/-- C7: in the optional-block noise-injection step of `predictCovariance`,
each earth-field diagonal entry receives `sq(dt * clamp(mage_p_noise,0,1))`
exactly when magnetometer fusion is active and the earth-field trace is
below 0.1; each body-field diagonal entry receives the analogous term
gated on the body-field trace; each wind diagonal entry receives the
vertical-speed-scaled wind noise exactly when wind estimation is active
and the wind trace is below `sq(initial_wind_uncertainty)`; in every
other case the diagonal entry is unchanged. -/
theorem C7_predict_optional_block_noise (e : Env) (P : Mat) :
    (∀ i, inB State.mag_I i →
      magWindNoiseStep e P i i = P i i +
        (if e.flags.mag = true ∧ traceBlock P State.mag_I < 1/10 then
          sq (e.dt * constrain e.p.mage_p_noise 0 1) else 0)) ∧
    (∀ i, inB State.mag_B i →
      magWindNoiseStep e P i i = P i i +
        (if e.flags.mag = true ∧ traceBlock P State.mag_B < 1/10 then
          sq (e.dt * constrain e.p.magb_p_noise 0 1) else 0)) ∧
    (∀ i, inB State.wind_vel i →
      magWindNoiseStep e P i i = P i i +
        (if e.flags.wind = true ∧
            traceBlock P State.wind_vel < sq e.p.initial_wind_uncertainty then
          sq (constrain e.p.wind_vel_nsd 0 1 *
            (1 + e.p.wind_vel_nsd_scaler * |e.height_rate_lpf|)) * e.dt
        else 0)) := by
  have hIB : ∀ k, inB State.mag_B k → ¬inB State.mag_I k := by
    intro k hk
    rw [inB_magB] at hk
    rw [inB_magI]
    omega
  have hIW : ∀ k, inB State.wind_vel k → ¬inB State.mag_I k := by
    intro k hk
    rw [inB_wind] at hk
    rw [inB_magI]
    omega
  have hBW : ∀ k, inB State.wind_vel k → ¬inB State.mag_B k := by
    intro k hk
    rw [inB_wind] at hk
    rw [inB_magB]
    omega
  have htrB : ∀ q, traceBlock (addDiagBlock State.mag_I q P) State.mag_B =
      traceBlock P State.mag_B := fun q =>
    traceBlock_addDiagBlock_disjoint _ _ _ _ hIB
  have htrWI : ∀ q (Q : Mat), traceBlock (addDiagBlock State.mag_I q Q) State.wind_vel =
      traceBlock Q State.wind_vel := fun q Q =>
    traceBlock_addDiagBlock_disjoint _ _ _ _ hIW
  have htrWB : ∀ q (Q : Mat), traceBlock (addDiagBlock State.mag_B q Q) State.wind_vel =
      traceBlock Q State.wind_vel := fun q Q =>
    traceBlock_addDiagBlock_disjoint _ _ _ _ hBW
  refine ⟨?_, ?_, ?_⟩
  · intro i hi
    have hiB : ¬inB State.mag_B i := by
      rw [inB_magI] at hi
      rw [inB_magB]
      omega
    have hiW : ¬inB State.wind_vel i := by
      rw [inB_magI] at hi
      rw [inB_wind]
      omega
    have eI : ∀ (q : ℚ) (Q : Mat), addDiagBlock State.mag_I q Q i i = Q i i + q :=
      fun q Q => addDiagBlock_diag _ _ _ hi
    have eB : ∀ (q : ℚ) (Q : Mat), addDiagBlock State.mag_B q Q i i = Q i i :=
      fun q Q => addDiagBlock_notMem _ _ _ _ hiB
    have eW : ∀ (q : ℚ) (Q : Mat), addDiagBlock State.wind_vel q Q i i = Q i i :=
      fun q Q => addDiagBlock_notMem _ _ _ _ hiW
    simp only [magWindNoiseStep]
    split_ifs <;> (try simp only [htrB, htrWI, htrWB] at *) <;>
      (try simp only [eI, eB, eW, add_zero]) <;> first | rfl | tauto
  · intro i hi
    have hiI : ¬inB State.mag_I i := by
      rw [inB_magB] at hi
      rw [inB_magI]
      omega
    have hiW : ¬inB State.wind_vel i := by
      rw [inB_magB] at hi
      rw [inB_wind]
      omega
    have eB : ∀ (q : ℚ) (Q : Mat), addDiagBlock State.mag_B q Q i i = Q i i + q :=
      fun q Q => addDiagBlock_diag _ _ _ hi
    have eI : ∀ (q : ℚ) (Q : Mat), addDiagBlock State.mag_I q Q i i = Q i i :=
      fun q Q => addDiagBlock_notMem _ _ _ _ hiI
    have eW : ∀ (q : ℚ) (Q : Mat), addDiagBlock State.wind_vel q Q i i = Q i i :=
      fun q Q => addDiagBlock_notMem _ _ _ _ hiW
    simp only [magWindNoiseStep]
    split_ifs <;> (try simp only [htrB, htrWI, htrWB] at *) <;>
      (try simp only [eI, eB, eW, add_zero]) <;> first | rfl | tauto
  · intro i hi
    have hiI : ¬inB State.mag_I i := by
      rw [inB_wind] at hi
      rw [inB_magI]
      omega
    have hiB : ¬inB State.mag_B i := by
      rw [inB_wind] at hi
      rw [inB_magB]
      omega
    have eWd : ∀ (q : ℚ) (Q : Mat), addDiagBlock State.wind_vel q Q i i = Q i i + q :=
      fun q Q => addDiagBlock_diag _ _ _ hi
    have eI : ∀ (q : ℚ) (Q : Mat), addDiagBlock State.mag_I q Q i i = Q i i :=
      fun q Q => addDiagBlock_notMem _ _ _ _ hiI
    have eB : ∀ (q : ℚ) (Q : Mat), addDiagBlock State.mag_B q Q i i = Q i i :=
      fun q Q => addDiagBlock_notMem _ _ _ _ hiB
    simp only [magWindNoiseStep]
    split_ifs <;> (try simp only [htrB, htrWI, htrWB] at *) <;>
      (try simp only [eWd, eI, eB, add_zero]) <;> first | rfl | tauto

/-- C8: the gyro noise variance handed to the transition routine is
`sq(clamp(gyro_noise, 0, 1))`; each accelerometer axis receives the
elevated fixed bad-data variance exactly when a fault is asserted for it
(bad vertical-axis data or delta-velocity clipping), and the clamped
configured value otherwise; and `predictCovariance` passes exactly these
quantities to the transition routine. -/
theorem C8_predict_imu_noise_selection (e : Env) (imu : ImuSample) :
    predictGyroVar e.p = sq (constrain e.p.gyro_noise 0 1) ∧
    (∀ i, (e.bad_acc_vertical = true ∨ imu.delta_vel_clipping i = true) →
      predictAccelVar e imu i = sq BADACC_BIAS_PNOISE) ∧
    (∀ i, e.bad_acc_vertical = false → imu.delta_vel_clipping i = false →
      predictAccelVar e imu i = sq (constrain e.p.accel_noise 0 1)) ∧
    (∀ trans P, predictCovariance e imu trans P =
      fixCovarianceErrors false e (symmetrizeUpperToLower (magWindNoiseStep e
        (injectBiasNoise e (trans P (predictGyroVar e.p) (predictAccelVar e imu)))))) := by
  refine ⟨rfl, ?_, ?_, fun trans P => rfl⟩
  · intro i hf
    unfold predictAccelVar
    rcases hf with hf | hf <;> rw [if_pos (by simp [hf])]
  · intro i h1 h2
    unfold predictAccelVar
    rw [if_neg (by simp [h1, h2])]

/-- Witness for C7 at concrete inputs: with magnetometer fusion active
and a small earth-field trace the earth-field diagonal receives exactly
the configured process noise, while with a large trace it receives
nothing. -/
theorem C7_witness :
    magWindNoiseStep exEnv exSmallP 15 15 =
      exSmallP 15 15 + sq (exEnv.dt * constrain exEnv.p.mage_p_noise 0 1) ∧
    magWindNoiseStep exEnv exGenP 16 16 = exGenP 16 16 := by
  constructor
  · rw [(C7_predict_optional_block_noise exEnv exSmallP).1 15 (by rw [inB_magI]; omega),
      if_pos ⟨rfl, by norm_num [traceBlock, State.mag_I, exSmallP, List.range_succ]⟩]
  · rw [(C7_predict_optional_block_noise exEnv exGenP).1 16 (by rw [inB_magI]; omega),
      if_neg (by
        rintro ⟨-, h⟩
        norm_num [traceBlock, State.mag_I, exGenP, List.range_succ] at h), add_zero]

/-- Witness for C8 at concrete inputs: the bad-vertical-accel fault and a
per-axis clipping fault each select the elevated bad-data variance, and a
fault-free axis selects the clamped configured variance. -/
theorem C8_witness :
    predictAccelVar exEnvBadAcc exImuClean 2 = sq BADACC_BIAS_PNOISE ∧
    predictAccelVar exEnv exImuClip1 1 = sq BADACC_BIAS_PNOISE ∧
    predictAccelVar exEnv exImuClean 0 = sq (constrain exEnv.p.accel_noise 0 1) :=
  ⟨(C8_predict_imu_noise_selection exEnvBadAcc exImuClean).2.1 2 (Or.inl rfl),
   (C8_predict_imu_noise_selection exEnv exImuClip1).2.1 1 (Or.inr (by decide)),
   (C8_predict_imu_noise_selection exEnv exImuClean).2.2.1 0 rfl rfl⟩

/-! ### Claim C9 -/

/-- Counterexample to C9 as stated: two `initialiseCovariance` calls
with identical configuration and mode flags but different current
attitude rotations produce different matrices — the attitude block is
the level-frame tilt/yaw variance rotated by the current attitude, so
the result is not a function of configuration and mode flags alone. -/
theorem C9_counterexample :
    initialiseCovariance exParams exEnv.flags exRId exGenP 1 1 ≠
      initialiseCovariance exParams exEnv.flags exRRot exGenP 1 1 := by
  norm_num [initialiseCovariance, resetWindCov, resetMagCov, resetAccelBiasCov,
    resetGyroBiasCov, resetQuatCov, resetQuatCovVec, resetStateCovarianceQuat,
    uncorrelateSetVar, uncorrelateSetVarVec, mul3, transpose3, diag3, inB,
    State.quat_nominal, State.vel, State.pos, State.gyro_bias, State.accel_bias,
    State.mag_I, State.mag_B, State.wind_vel, List.range_succ, sq, exParams,
    exRId, exRRot]

/-- C9 (amended): `initialiseCovariance` is a deterministic function of
the configuration, the mode flags and the current attitude rotation; in
particular it never depends on the prior contents of the covariance
matrix, which is zeroed first. -/
theorem C9_initialiseCovariance_deterministic (p : Params) (flags : ControlFlags)
    (R : Mat3) (P Q : Mat) :
    ∀ i j, initialiseCovariance p flags R P i j = initialiseCovariance p flags R Q i j :=
  fun _ _ => rfl

end EkfCov
